import Mathlib

/-!
Verification development for the CHIP-8 emulator core
(`src/emulator/emulator.py`, `src/emulator/display.py`,
`src/emulator/sound.py`, `src/emulator/config.py`, `src/main.py`).

The Python classes are shallowly embedded: mutable objects become records,
method calls become functions from state to state, raised exceptions become
an `Option EmuError` component carrying the state as mutated up to the
raise.  Machine bytes are `Nat` with explicit masking (`% 256`, `% 4096`)
exactly where the Python code masks; Python `&` with a low-bit mask
`0x...F` is written as the equal `%`/`/` arithmetic, noted next to each use.
-/

/-- Modelled from the spec: `src/emulator/constants.py` is imported by the
code but absent from the source tree; the spec fixes the memory size at
4096 bytes (addresses 0x000-0xFFF). -/
def MEMORY_SIZE : Nat := 4096

/-- Modelled from the spec: call stack capacity is 16 in the reference
behavior (`constants.py` absent). -/
def STACK_SIZE : Nat := 16

/-- Modelled from the spec: 16 general registers V0-VF (`constants.py`
absent). -/
def V_COUNT : Nat := 16

/-- Modelled from the spec: base display is 64 pixels wide (`constants.py`
absent). -/
def SCREEN_WIDTH : Nat := 64

/-- Modelled from the spec: base display is 32 pixels high (`constants.py`
absent). -/
def SCREEN_HEIGHT : Nat := 32

/-- `QuirkConfig` from `src/emulator/config.py`. -/
structure QuirkConfig where
  shift_legacy : Bool
  load_store_increment_i : Bool
  draw_wrap : Bool
  jump_with_v0_quirk : Bool
deriving DecidableEq

/-- `EmulatorConfig` from `src/emulator/config.py` (display/GUI selection
fields kept as plain data; they do not influence the modelled core). -/
structure EmulatorConfig where
  cycles_per_frame : Nat
  scale : Nat
  debug : Bool
  use_pygame : Bool
  use_tk : Bool
  sound_enabled : Bool
  quirks : QuirkConfig

/-- The pixel grid of the console display backend
(`src/emulator/display.py`).  Python stores `height` rows of `width` ints
(each 0 or 1); we model the grid as a total function on (row, column).
The drawing code below only ever reads or writes in-bounds coordinates,
so the two representations agree on every reachable access. -/
def Grid : Type := Nat → Nat → Nat

/-- Pointwise update of one grid cell (`self.pixels[yy][xx] = v`). -/
def Grid.set (g : Grid) (r c v : Nat) : Grid :=
  fun r' c' => if r' = r ∧ c' = c then v else g r' c'

/-- The console `Display` object (`src/emulator/display.py`). -/
structure Display where
  width : Nat
  height : Nat
  pixels : Grid
  drawFlag : Bool
  firstRender : Bool

/-- `Display.clear`. -/
def Display.clear (d : Display) : Display :=
  { d with pixels := fun _ _ => 0, drawFlag := true }

/-- Inner column loop of `Display.draw_sprite` (`for col in range(8)`),
over the list of remaining column indices; returning early models
`break`. -/
def drawCols (w : Nat) (wrap : Bool) (x yy spriteByte : Nat) :
    List Nat → Grid → Bool → Grid × Bool
  | [], px, coll => (px, coll)
  | col :: cols, px, coll =>
    if spriteByte &&& (0x80 >>> col) = 0 then
      drawCols w wrap x yy spriteByte cols px coll
    else
      let xx := if wrap then (x + col) % w else x + col
      if w ≤ xx then (px, coll)
      else
        let coll' := if px yy xx = 1 then true else coll
        drawCols w wrap x yy spriteByte cols (px.set yy xx (px yy xx ^^^ 1)) coll'

/-- Outer row loop of `Display.draw_sprite` (`for row in range(height)`).
`sprite[row]` is read with default 0; every caller in the engine passes a
sprite list of exactly `height` bytes. -/
def drawRows (w h : Nat) (wrap : Bool) (x y : Nat) (sprite : List Nat) :
    List Nat → Grid → Bool → Grid × Bool
  | [], px, coll => (px, coll)
  | row :: rows, px, coll =>
    let yy := if wrap then (y + row) % h else y + row
    if h ≤ yy then (px, coll)
    else
      let st := drawCols w wrap x yy (sprite.getD row 0) (List.range 8) px coll
      drawRows w h wrap x y sprite rows st.1 st.2

/-- `Display.draw_sprite(x, y, sprite, height, wrap)`: XOR-draws the
sprite and returns the updated display together with the collision flag. -/
def Display.drawSprite (d : Display) (x y : Nat) (sprite : List Nat)
    (height : Nat) (wrap : Bool) : Display × Bool :=
  let st := drawRows d.width d.height wrap x y sprite (List.range height) d.pixels false
  ({ d with pixels := st.1, drawFlag := true }, st.2)

/-- `Display.render`: redraws only when `draw_flag` is set (terminal
output itself is external I/O and not part of the state). -/
def Display.render (d : Display) : Display :=
  if d.drawFlag then { d with firstRender := false, drawFlag := false } else d

/-- The `Sound` object (`src/emulator/sound.py`). -/
structure Sound where
  timer : Nat
  playing : Bool
  enabled : Bool
deriving DecidableEq

/-- `Sound.set_timer`: `self.timer = int(value) & 0xFF` (written `% 256`),
and `playing` resets when the timer becomes zero. -/
def Sound.set_timer (s : Sound) (value : Nat) : Sound :=
  let t := value % 256
  { s with timer := t, playing := if t = 0 then false else s.playing }

/-- `Sound.update`: while the timer is positive it decrements and the
"sounding" latch tracks whether it is still positive (the terminal-bell
side effect is external I/O). -/
def Sound.update (s : Sound) : Sound :=
  if 0 < s.timer then
    let t := s.timer - 1
    { s with timer := t, playing := if t = 0 then false else true }
  else { s with playing := false }

/-- `Sound.stop`. -/
def Sound.stop (s : Sound) : Sound :=
  { s with timer := 0, playing := false }

/-- Errors surfaced by the engine.  The first four are the `RuntimeError`s
the engine raises itself (each after latching `halted`); `indexError` is
the Python `IndexError` escaping from an unchecked `memory[...]` access
(it is raised by the runtime, not the engine, and does not latch
`halted`). -/
inductive EmuError where
  | fetchOutOfBounds
  | stackUnderflow
  | stackOverflow
  | spriteOutOfBounds
  | indexError
deriving DecidableEq

/-- `ValueError` from `Chip8.load_rom` when the ROM exceeds memory. -/
inductive LoadError where
  | romTooLarge
deriving DecidableEq

/-- The `Chip8` machine (`src/emulator/emulator.py`).  The input handler's
key table is the `keys` function; `waitKeyCode` is the oracle for the
blocking `wait_for_key` call and `randByte` the oracle for the next
`getrandbits(8)` value (stdin and the RNG are external). -/
structure Chip8 where
  memory : List Nat
  V : List Nat
  stack : List Nat
  sp : Nat
  pc : Nat
  I : Nat
  delay_timer : Nat
  config : EmulatorConfig
  display : Display
  keys : Nat → Bool
  waitKeyCode : Nat
  randByte : Nat
  sound : Sound
  debug : Bool
  cycles_per_frame : Nat
  halted : Bool
  rom_loaded : Bool

/-- Read a register / byte list with default 0 (`self.V[x]`; all engine
reads are in range on a well-formed state). -/
def vget (l : List Nat) (i : Nat) : Nat := l.getD i 0

/-- Checked memory write (`self.memory[addr] = v`): Python raises
`IndexError` when `addr` is not below the array length. -/
def mset (m : List Nat) (addr v : Nat) : Option (List Nat) :=
  if addr < m.length then some (m.set addr v) else none

/-- `(a - b) & 0xFF` on Python ints: two's-complement masking of a
possibly negative difference, i.e. the nonnegative residue mod 256. -/
def sub8 (a b : Nat) : Nat := (((a : Int) - (b : Int)) % 256).toNat

/-- The `8xy?` ALU group of `Chip8.decode_and_execute` (lines 169-198),
acting on the register file.  The write order mirrors the source exactly:
`8xy4` writes Vx then VF; `8xy5`, `8xy6`, `8xy7`, `8xyE` write VF first
and then Vx, re-reading any operand registers after the VF write exactly
where the source re-reads `self.V[...]`. -/
def execALU (q : QuirkConfig) (V : List Nat) (x y n : Nat) : List Nat :=
  if n = 0x0 then V.set x (vget V y)
  else if n = 0x1 then V.set x (vget V x ||| vget V y)
  else if n = 0x2 then V.set x (vget V x &&& vget V y)
  else if n = 0x3 then V.set x (vget V x ^^^ vget V y)
  else if n = 0x4 then
    let sum := vget V x + vget V y
    let V1 := V.set x (sum % 256)          -- sum_val & 0xFF
    V1.set 0xF (if 0xFF < sum then 1 else 0)
  else if n = 0x5 then
    let V1 := V.set 0xF (if vget V y < vget V x then 1 else 0)
    V1.set x (sub8 (vget V1 x) (vget V1 y))  -- (V[x] - V[y]) & 0xFF, read after the VF write
  else if n = 0x6 then
    let source := if q.shift_legacy then vget V y else vget V x
    let V1 := V.set 0xF (source % 2)         -- source & 0x1
    V1.set x (source / 2 % 256)              -- (source >> 1) & 0xFF
  else if n = 0x7 then
    let V1 := V.set 0xF (if vget V x < vget V y then 1 else 0)
    V1.set x (sub8 (vget V1 y) (vget V1 x))  -- (V[y] - V[x]) & 0xFF, read after the VF write
  else if n = 0xE then
    let source := if q.shift_legacy then vget V y else vget V x
    let V1 := V.set 0xF (source / 128 % 2)   -- (source & 0x80) >> 7
    V1.set x (source * 2 % 256)              -- (source << 1) & 0xFF
  else V

/-- Register loop of `Fx55` (`for i in range(x+1): memory[I+i] = V[i]`),
with the unchecked Python indexing: on the first out-of-range address the
`IndexError` carries the memory as written so far. -/
def storeRegs (base : Nat) (V : List Nat) :
    Nat → Nat → List Nat → Except (List Nat) (List Nat)
  | 0, _, m => .ok m
  | k + 1, i, m =>
    if base + i < m.length then storeRegs base V k (i + 1) (m.set (base + i) (vget V i))
    else .error m

/-- Register loop of `Fx65` (`for i in range(x+1): V[i] = memory[I+i]`),
with the unchecked Python indexing: on the first out-of-range address the
`IndexError` carries the registers as written so far. -/
def loadRegs (m : List Nat) (base : Nat) :
    Nat → Nat → List Nat → Except (List Nat) (List Nat)
  | 0, _, V => .ok V
  | k + 1, i, V =>
    if base + i < m.length then loadRegs m base k (i + 1) (V.set i (vget m (base + i)))
    else .error V

/-- Body of `Fx33` (BCD store): three unchecked memory writes; the
`IndexError` state carries the writes that already landed. -/
def execBcd (s : Chip8) (x : Nat) : Chip8 × Option EmuError :=
  match mset s.memory s.I (vget s.V x / 100) with
  | none => (s, some .indexError)
  | some m1 =>
    match mset m1 (s.I + 1) (vget s.V x / 10 % 10) with
    | none => ({ s with memory := m1 }, some .indexError)
    | some m2 =>
      match mset m2 (s.I + 2) (vget s.V x % 10) with
      | none => ({ s with memory := m2 }, some .indexError)
      | some m3 => ({ s with memory := m3 }, none)

/-- Body of `Fx55` (store V0..Vx at I), including the optional
quirk-driven increment of I. -/
def execStore (s : Chip8) (x : Nat) : Chip8 × Option EmuError :=
  match storeRegs s.I s.V (x + 1) 0 s.memory with
  | .error m => ({ s with memory := m }, some .indexError)
  | .ok m =>
    if s.config.quirks.load_store_increment_i then
      ({ s with memory := m, I := s.I + (x + 1) }, none)
    else ({ s with memory := m }, none)

/-- Body of `Fx65` (load V0..Vx from I), including the optional
quirk-driven increment of I. -/
def execLoad (s : Chip8) (x : Nat) : Chip8 × Option EmuError :=
  match loadRegs s.memory s.I (x + 1) 0 s.V with
  | .error v => ({ s with V := v }, some .indexError)
  | .ok v =>
    if s.config.quirks.load_store_increment_i then
      ({ s with V := v, I := s.I + (x + 1) }, none)
    else ({ s with V := v }, none)

/-- `Chip8.decode_and_execute`.  The decoded sub-fields are Python's
bit-mask extractions written arithmetically:
`nnn = opcode & 0x0FFF` is `% 4096`, `nn = opcode & 0x00FF` is `% 256`,
`n = opcode & 0x000F` is `% 16`, `x = (opcode & 0x0F00) >> 8` is
`/ 256 % 16`, `y = (opcode & 0x00F0) >> 4` is `/ 16 % 16`, and
`op = (opcode & 0xF000) >> 12` is `/ 4096 % 16`.  A raised exception is
returned as `some e` next to the state as mutated before the raise. -/
def decode_and_execute (s : Chip8) (opcode : Nat) : Chip8 × Option EmuError :=
  let nnn := opcode % 4096
  let nn := opcode % 256
  let n := opcode % 16
  let x := opcode / 256 % 16
  let y := opcode / 16 % 16
  let op := opcode / 4096 % 16
  if op = 0x0 then
    if opcode = 0x00E0 then ({ s with display := s.display.clear }, none)
    else if opcode = 0x00EE then
      if s.sp = 0 then ({ s with halted := true }, some .stackUnderflow)
      else ({ s with sp := s.sp - 1, pc := vget s.stack (s.sp - 1) }, none)
    else (s, none)
  else if op = 0x1 then ({ s with pc := nnn }, none)
  else if op = 0x2 then
    if STACK_SIZE ≤ s.sp then ({ s with halted := true }, some .stackOverflow)
    else ({ s with stack := s.stack.set s.sp s.pc, sp := s.sp + 1, pc := nnn }, none)
  else if op = 0x3 then
    (if vget s.V x = nn then { s with pc := s.pc + 2 } else s, none)
  else if op = 0x4 then
    (if vget s.V x ≠ nn then { s with pc := s.pc + 2 } else s, none)
  else if op = 0x5 then
    (if n = 0 ∧ vget s.V x = vget s.V y then { s with pc := s.pc + 2 } else s, none)
  else if op = 0x6 then ({ s with V := s.V.set x nn }, none)
  else if op = 0x7 then
    ({ s with V := s.V.set x ((vget s.V x + nn) % 256) }, none)  -- (V[x] + nn) & 0xFF
  else if op = 0x8 then ({ s with V := execALU s.config.quirks s.V x y n }, none)
  else if op = 0x9 then
    (if n = 0 ∧ vget s.V x ≠ vget s.V y then { s with pc := s.pc + 2 } else s, none)
  else if op = 0xA then ({ s with I := nnn }, none)
  else if op = 0xB then ({ s with pc := nnn + vget s.V 0 }, none)
  else if op = 0xC then ({ s with V := s.V.set x (s.randByte % 256 &&& nn) }, none)
  else if op = 0xD then
    if MEMORY_SIZE < s.I + n then ({ s with halted := true }, some .spriteOutOfBounds)
    else
      let sprite := (List.range n).map (fun i => vget s.memory (s.I + i))
      let dc := s.display.drawSprite (vget s.V x) (vget s.V y) sprite n s.config.quirks.draw_wrap
      ({ s with display := dc.1, V := s.V.set 0xF (if dc.2 then 1 else 0) }, none)
  else if op = 0xE then
    if nn = 0x9E then
      (if s.keys (vget s.V x) then { s with pc := s.pc + 2 } else s, none)
    else if nn = 0xA1 then
      (if s.keys (vget s.V x) then s else { s with pc := s.pc + 2 }, none)
    else (s, none)
  else if op = 0xF then
    if nn = 0x07 then ({ s with V := s.V.set x s.delay_timer }, none)
    else if nn = 0x0A then
      -- wait_for_key blocks externally, records the pressed key in the
      -- key table (input.py line 64) and returns its code
      ({ s with V := s.V.set x s.waitKeyCode,
                keys := fun k => if k = s.waitKeyCode then true else s.keys k }, none)
    else if nn = 0x15 then ({ s with delay_timer := vget s.V x }, none)
    else if nn = 0x18 then ({ s with sound := s.sound.set_timer (vget s.V x) }, none)
    else if nn = 0x1E then ({ s with I := s.I + vget s.V x }, none)
    else if nn = 0x29 then ({ s with I := vget s.V x * 5 }, none)
    else if nn = 0x33 then execBcd s x
    else if nn = 0x55 then execStore s x
    else if nn = 0x65 then execLoad s x
    else (s, none)
  else (s, none)

/-- `Chip8.fetch_opcode`: guard, big-endian word read, PC advance. -/
def fetch_opcode (s : Chip8) : Chip8 × Except EmuError Nat :=
  if MEMORY_SIZE ≤ s.pc ∨ MEMORY_SIZE ≤ s.pc + 1 then
    ({ s with halted := true }, .error .fetchOutOfBounds)
  else
    -- (memory[pc] << 8) | memory[pc + 1], byte-valued cells
    ({ s with pc := s.pc + 2 },
      .ok (vget s.memory s.pc * 256 + vget s.memory (s.pc + 1)))

/-- `Chip8.step`: no-op when halted, else poll input (external, no modelled
state change), fetch and execute one instruction. -/
def step (s : Chip8) : Chip8 × Option EmuError :=
  if s.halted then (s, none)
  else
    match fetch_opcode s with
    | (s1, .error e) => (s1, some e)
    | (s1, .ok opcode) => decode_and_execute s1 opcode

/-- `Chip8.update_timers`. -/
def update_timers (s : Chip8) : Chip8 :=
  let s1 := if 0 < s.delay_timer then { s with delay_timer := s.delay_timer - 1 } else s
  { s1 with sound := s1.sound.update }

/-- Observation of one `run_frame` call: the resulting state, how many
timer ticks and display presents completed, and the exception (if any)
that propagated out of the call. -/
structure FrameResult where
  state : Chip8
  timerTicks : Nat
  presents : Nat
  fault : Option EmuError

/-- The instruction loop of `Chip8.run_frame`
(`for _ in range(self.cycles_per_frame)`): stops early on `halted`; an
exception raised by `step` propagates immediately. -/
def runSteps (s : Chip8) : Nat → Chip8 × Option EmuError
  | 0 => (s, none)
  | k + 1 =>
    if s.halted then (s, none)
    else
      match step s with
      | (s1, some e) => (s1, some e)
      | (s1, none) => runSteps s1 k

/-- `Chip8.run_frame`.  On the halted path it still ticks timers and
renders; otherwise it runs the instruction loop and, only if no exception
propagated, ticks timers once and renders once.  (Pygame event polling is
skipped for the console backend modelled here.) -/
def run_frame (s : Chip8) : FrameResult :=
  if s.halted then
    let s1 := update_timers s
    ⟨{ s1 with display := s1.display.render }, 1, 1, none⟩
  else
    match runSteps s s.cycles_per_frame with
    | (s1, some e) => ⟨s1, 0, 0, some e⟩
    | (s1, none) =>
      let s2 := update_timers s1
      ⟨{ s2 with display := s2.display.render }, 1, 1, none⟩

/-- The frame loop of `main` (`src/main.py`) stripped of real-time pacing:
it calls `run_frame` repeatedly and catches only `KeyboardInterrupt`, so
an engine exception terminates the loop. -/
def hostFrames (s : Chip8) : Nat → Chip8 × Option EmuError
  | 0 => (s, none)
  | k + 1 =>
    let r := run_frame s
    match r.fault with
    | some e => (r.state, some e)
    | none => hostFrames r.state k

/-- `array('H').tobytes()`: each 16-bit stack entry as two bytes in the
machine's (little-endian) byte order. -/
def stackBytes : List Nat → List Nat
  | [] => []
  | e :: rest => e % 256 :: e / 256 :: stackBytes rest

/-- `array('H').frombytes` of `k` entries: inverse byte order of
`stackBytes`. -/
def parseStack : Nat → List Nat → List Nat
  | 0, _ => []
  | k + 1, bytes => (bytes.getD 0 0 + 256 * bytes.getD 1 0) :: parseStack k (bytes.drop 2)

/-- `Chip8.save_state`: the snapshot byte sequence (memory, V, stack,
then PC and I big-endian 2-byte, then SP, delay timer, sound timer one
byte each).  `int.to_bytes` raises `OverflowError` when a field exceeds
its width, modelled as `none`. -/
def save_state (s : Chip8) : Option (List Nat) :=
  if s.pc < 65536 ∧ s.I < 65536 ∧ s.sp < 256 ∧ s.delay_timer < 256 ∧ s.sound.timer < 256 then
    some (s.memory ++ (s.V ++ (stackBytes s.stack ++
      (s.pc / 256 :: s.pc % 256 :: s.I / 256 :: s.I % 256 ::
       s.sp :: s.delay_timer :: s.sound.timer :: []))))
  else none

/-- `Chip8.load_state`: parses the snapshot back, field by field, fully
replacing the corresponding engine state (the sound timer goes through
`Sound.set_timer`; a missing trailing byte leaves the sound timer
alone). -/
def load_state (s : Chip8) (bytes : List Nat) : Chip8 :=
  let memory := bytes.take MEMORY_SIZE
  let r1 := bytes.drop MEMORY_SIZE
  let v := r1.take V_COUNT
  let r2 := r1.drop V_COUNT
  let stack := parseStack STACK_SIZE r2
  let r3 := r2.drop (STACK_SIZE * 2)
  let pc := r3.getD 0 0 * 256 + r3.getD 1 0
  let r4 := r3.drop 2
  let i := r4.getD 0 0 * 256 + r4.getD 1 0
  let r5 := r4.drop 2
  let s1 := { s with memory := memory, V := v, stack := stack, pc := pc, I := i,
                     sp := r5.getD 0 0, delay_timer := r5.getD 1 0 }
  match r5.drop 2 with
  | [] => s1
  | b :: _ => { s1 with sound := s1.sound.set_timer b }

/-- `Chip8.reset`: soft reset of registers, timers, stack; ROM and fontset
stay in memory. -/
def reset (s : Chip8) : Chip8 :=
  { s with V := (List.range V_COUNT).foldl (fun v i => v.set i 0) s.V,
           sp := 0, pc := 0x200, I := 0, delay_timer := 0,
           sound := s.sound.set_timer 0, halted := false }

/-- Sequential byte copy (`for i, byte in enumerate(rom): memory[base+i] = byte`). -/
def writeBytes : List Nat → Nat → List Nat → List Nat
  | m, _, [] => m
  | m, a, b :: bs => writeBytes (m.set a b) (a + 1) bs

/-- `Chip8.load_rom`: size check against `MEMORY_SIZE - 0x200`, copy at
0x200, reset PC, clear `halted`, mark the ROM loaded.  A `ValueError` is
returned as `some .romTooLarge` with the state untouched. -/
def load_rom (s : Chip8) (rom : List Nat) : Chip8 × Option LoadError :=
  if MEMORY_SIZE - 0x200 < rom.length then (s, some .romTooLarge)
  else
    ({ s with memory := writeBytes s.memory 0x200 rom,
              pc := 0x200, halted := false, rom_loaded := true }, none)

/-- `Chip8.__init__` with the console display backend.  The fontset bytes
come from the absent `constants.py`, so they are a parameter; `__init__`
copies them to address 0. -/
def Chip8.init (fontset : List Nat) (cfg : EmulatorConfig) : Chip8 :=
  { memory := writeBytes (List.replicate MEMORY_SIZE 0) 0 fontset
    V := List.replicate V_COUNT 0
    stack := List.replicate STACK_SIZE 0
    sp := 0
    pc := 0x200
    I := 0
    delay_timer := 0
    config := cfg
    display := { width := SCREEN_WIDTH, height := SCREEN_HEIGHT,
                 pixels := fun _ _ => 0, drawFlag := false, firstRender := true }
    keys := fun _ => false
    waitKeyCode := 0
    randByte := 0
    sound := { timer := 0, playing := false, enabled := cfg.sound_enabled }
    debug := cfg.debug
    cycles_per_frame := cfg.cycles_per_frame
    halted := false
    rom_loaded := false }

/-- Claim C1's reading of the flagged ALU opcodes, written from the spec's
words: the 8-bit-masked data result is computed from the pre-instruction
registers and written to Vx first, then VF receives the specified flag
(also computed from the pre-instruction registers) as the last side
effect. -/
def aluSpecC1 (q : QuirkConfig) (V : List Nat) (x y n : Nat) : List Nat :=
  if n = 0x4 then
    (V.set x ((vget V x + vget V y) % 256)).set 0xF
      (if 0xFF < vget V x + vget V y then 1 else 0)
  else if n = 0x5 then
    (V.set x (sub8 (vget V x) (vget V y))).set 0xF
      (if vget V y < vget V x then 1 else 0)
  else if n = 0x6 then
    let source := if q.shift_legacy then vget V y else vget V x
    (V.set x (source / 2 % 256)).set 0xF (source % 2)
  else if n = 0x7 then
    (V.set x (sub8 (vget V y) (vget V x))).set 0xF
      (if vget V x < vget V y then 1 else 0)
  else if n = 0xE then
    let source := if q.shift_legacy then vget V y else vget V x
    (V.set x (source * 2 % 256)).set 0xF (source / 128 % 2)
  else V

/-- Claim C4's reading of the column loop: in clip mode processing of the
row stops as soon as the target column passes the right edge; zero bits
are skipped; each surviving set bit XORs its destination pixel, recording
a collision exactly when that pixel was already set. -/
def specCols (w : Nat) (wrap : Bool) (x yy spriteByte : Nat) :
    List Nat → Grid → Bool → Grid × Bool
  | [], px, coll => (px, coll)
  | col :: cols, px, coll =>
    if wrap = false ∧ w ≤ x + col then (px, coll)
    else if spriteByte &&& (0x80 >>> col) = 0 then
      specCols w wrap x yy spriteByte cols px coll
    else
      let xx := if wrap then (x + col) % w else x + col
      let coll' := if px yy xx = 1 then true else coll
      specCols w wrap x yy spriteByte cols (px.set yy xx (px yy xx ^^^ 1)) coll'

/-- Claim C4's reading of the row loop: each row targets `(y+row) % height`
when wrapping, and in clip mode processing stops once `y+row` reaches the
bottom edge. -/
def specRows (w h : Nat) (wrap : Bool) (x y : Nat) (sprite : List Nat) :
    List Nat → Grid → Bool → Grid × Bool
  | [], px, coll => (px, coll)
  | row :: rows, px, coll =>
    if wrap = false ∧ h ≤ y + row then (px, coll)
    else
      let yy := if wrap then (y + row) % h else y + row
      let st := specCols w wrap x yy (sprite.getD row 0) (List.range 8) px coll
      specRows w h wrap x y sprite rows st.1 st.2

/-- The draw call as described by claim C4, assembled from `specRows`. -/
def specDrawSprite (d : Display) (x y : Nat) (sprite : List Nat)
    (height : Nat) (wrap : Bool) : Display × Bool :=
  let st := specRows d.width d.height wrap x y sprite (List.range height) d.pixels false
  ({ d with pixels := st.1, drawFlag := true }, st.2)

/-- Whether some column of one sprite row actually lands a set bit
on-screen (wrap mode always lands; clip mode requires `x+c < w`). -/
def colHits (w : Nat) (wrap : Bool) (x sb : Nat) (cols : List Nat) : Bool :=
  cols.any fun c => decide ((sb &&& (0x80 >>> c)) ≠ 0) && (wrap || decide (x + c < w))

/-- Whether a whole draw call touches at least one pixel. -/
def spriteTouches (w h : Nat) (wrap : Bool) (x y : Nat) (sprite : List Nat)
    (height : Nat) : Bool :=
  (List.range height).any fun r =>
    (wrap || decide (y + r < h)) && colHits w wrap x (sprite.getD r 0) (List.range 8)

/-- The fatal engine faults of the spec's error taxonomy: exactly the
errors whose raise latches `halted` (a Python `IndexError` is not among
them). -/
def isFatal : Option EmuError → Bool
  | some .fetchOutOfBounds => true
  | some .stackUnderflow => true
  | some .stackOverflow => true
  | some .spriteOutOfBounds => true
  | _ => false

/-- Well-formedness of an engine state: the shapes and ranges every state
reachable by the engine satisfies (byte arrays of fixed length, 16-bit
stack entries, PC and I within 16 bits, one-byte SP and timers). -/
def WfState (s : Chip8) : Prop :=
  s.memory.length = MEMORY_SIZE ∧ (∀ b ∈ s.memory, b < 256) ∧
  s.V.length = V_COUNT ∧ (∀ b ∈ s.V, b < 256) ∧
  s.stack.length = STACK_SIZE ∧ (∀ e ∈ s.stack, e < 65536) ∧
  s.pc < 65536 ∧ s.I < 65536 ∧ s.sp < 256 ∧ s.delay_timer < 256 ∧ s.sound.timer < 256

/-- The same engine state with the `jump_with_v0_quirk` flag forced to a
given value (everything else unchanged). -/
def setJumpQuirk (s : Chip8) (b : Bool) : Chip8 :=
  { s with config :=
      { s.config with quirks := { s.config.quirks with jump_with_v0_quirk := b } } }

/-- Execute the same opcode repeatedly, stopping at the first raised
error (used to iterate `2nnn` calls). -/
def repeatCall (opcode : Nat) : Nat → Chip8 → Chip8 × Option EmuError
  | 0, s => (s, none)
  | k + 1, s =>
    match decode_and_execute s opcode with
    | (s1, none) => repeatCall opcode k s1
    | (s1, some e) => (s1, some e)

/-- All-quirks-off configuration (the dataclass defaults). -/
def quirksOff : QuirkConfig := ⟨false, false, false, false⟩

/-- A concrete configuration for test fixtures: one instruction per frame,
console display. -/
def cfg0 : EmulatorConfig :=
  { cycles_per_frame := 1, scale := 10, debug := false, use_pygame := false,
    use_tk := false, sound_enabled := true, quirks := quirksOff }

/-- A freshly constructed engine with an empty fontset. -/
def chip0 : Chip8 := Chip8.init [] cfg0

/-- Register file with V0 = 3 and VF = 5 (counterexample fixture). -/
def vc15 : List Nat := [3, 0, 0, 0, 0, 0, 0, 0, 0, 0, 0, 0, 0, 0, 0, 5]

/-- State about to execute `Fx33` with I = 4095: the third BCD write
would land at address 4097. -/
def sBcd : Chip8 :=
  { chip0 with I := 4095, V := (List.replicate 16 0).set 0 123 }

/-- State about to store registers (`Fx55`) with I = 4096: the very first
write is already out of range. -/
def sStore : Chip8 := { chip0 with I := 4096 }

/-- State whose next fetch is out of bounds (PC = 4095, so PC+1 = 4096). -/
def sFetch : Chip8 := { chip0 with pc := 4095 }

/-- A halted engine (fixture for the halted-flag claims). -/
def sHalted : Chip8 := { chip0 with halted := true }

/-- State with V0 = 16 (so the `Fx29` glyph formula and `Vx * 5`
disagree). -/
def sFont : Chip8 := { chip0 with V := (List.replicate 16 0).set 0 16 }

/-- A blank 64-by-32 console display. -/
def disp0 : Display :=
  { width := 64, height := 32, pixels := fun _ _ => 0, drawFlag := false,
    firstRender := true }

/-- Destination column of sprite bit `c` (wrap takes the residue, clip
keeps the raw column). -/
def tgtC (w : Nat) (wrap : Bool) (x c : Nat) : Nat :=
  if wrap then (x + c) % w else x + c

/-- Destination row of sprite row `r`. -/
def tgtR (h : Nat) (wrap : Bool) (y r : Nat) : Nat :=
  if wrap then (y + r) % h else y + r

theorem vget_set_self (l : List Nat) (i a : Nat) (h : i < l.length) :
    vget (l.set i a) i = a := by
  induction l generalizing i with
  | nil => simp at h
  | cons b t ih =>
    cases i with
    | zero => rfl
    | succ j => simpa [vget, List.getD] using ih j (by simpa using h)

theorem vget_set_ne (l : List Nat) (i j a : Nat) (h : j ≠ i) :
    vget (l.set i a) j = vget l j := by
  induction l generalizing i j with
  | nil => rfl
  | cons b t ih =>
    cases i with
    | zero => cases j with
      | zero => exact absurd rfl h
      | succ j' => rfl
    | succ i' => cases j with
      | zero => rfl
      | succ j' => simpa [vget, List.getD] using ih i' j' (by omega)

theorem Grid.set_same (g : Grid) (r c v : Nat) : g.set r c v r c = v := by
  simp [Grid.set]

theorem Grid.set_other (g : Grid) (r c v r' c' : Nat) (h : ¬(r' = r ∧ c' = c)) :
    g.set r c v r' c' = g r' c' := by
  simp only [Grid.set, if_neg h]

theorem Grid.set_absorb (g : Grid) (r c v v' : Nat) :
    (g.set r c v).set r c v' = g.set r c v' := by
  funext r' c'
  by_cases h : r' = r ∧ c' = c
  · simp [Grid.set, h]
  · simp only [Grid.set, if_neg h]

theorem Grid.set_id (g : Grid) (r c v : Nat) (h : g r c = v) : g.set r c v = g := by
  funext r' c'
  by_cases hrc : r' = r ∧ c' = c
  · obtain ⟨h1, h2⟩ := hrc; subst h1; subst h2; simp [Grid.set, h]
  · simp only [Grid.set, if_neg hrc]

theorem Grid.set_comm (g : Grid) (r c v r' c' v' : Nat) (h : ¬(r' = r ∧ c' = c)) :
    (g.set r c v).set r' c' v' = (g.set r' c' v').set r c v := by
  funext a b
  by_cases h1 : a = r' ∧ b = c'
  · have h2 : ¬(a = r ∧ b = c) := by
      rintro ⟨rfl, rfl⟩; exact h ⟨h1.1.symm, h1.2.symm⟩
    simp only [Grid.set, if_pos h1, if_neg h2]
  · by_cases h2 : a = r ∧ b = c
    · simp only [Grid.set, if_pos h2, if_neg h1]
    · simp only [Grid.set, if_neg h1, if_neg h2]

/-- Claim C1, as stated, is false: for `8xy5` with x = F the source writes
the borrow flag into VF *before* the data write, and then re-reads VF as
the minuend, so the final VF is not the specified flag value and the data
write is not followed by the flag write.  Concretely, with V0 = 3 and
VF = 5, `8F05` leaves VF = 254, while the claimed order leaves VF = 1. -/
theorem C1_counterexample :
    execALU quirksOff vc15 15 0 5 ≠ aluSpecC1 quirksOff vc15 15 0 5 := by decide

/-- Claim C1 (amended): `8xy4` matches the claim exactly for all x, y
(Vx is written first, VF receives the carry flag last).  For `8xy5`,
`8xy6`, `8xy7` and `8xyE` the source writes VF *first* and Vx second;
whenever neither x nor y is F this still produces exactly the claimed
final state (flag value computed before the subtract, data result masked
to 8 bits), so the orders are indistinguishable except through VF
itself. -/
theorem C1_alu_flag_semantics :
    (∀ q V x y, execALU q V x y 4 = aluSpecC1 q V x y 4) ∧
    (∀ q V x y n, x ≠ 15 → y ≠ 15 → (n = 5 ∨ n = 6 ∨ n = 7 ∨ n = 0xE) →
      execALU q V x y n = aluSpecC1 q V x y n) := by
  constructor
  · intro q V x y
    simp [execALU, aluSpecC1]
  · rintro q V x y n hx hy (rfl | rfl | rfl | rfl) <;>
      simp only [execALU, aluSpecC1] <;> norm_num <;>
      (try rw [vget_set_ne _ _ _ _ hx, vget_set_ne _ _ _ _ hy]) <;>
      rw [List.set_comm _ _ _ (by omega : (15 : Nat) ≠ x)]

/-- Witness for the amended claim C1 at a concrete input. -/
theorem C1_alu_flag_semantics_witness :
    execALU quirksOff vc15 0 1 5 = aluSpecC1 quirksOff vc15 0 1 5 :=
  C1_alu_flag_semantics.2 quirksOff vc15 0 1 5 (by decide) (by decide) (Or.inl rfl)

/-- Claim C8, as stated, is false: `Fx29` computes `I = Vx * 5` without
masking Vx to its low nibble, so with V0 = 16 the instruction `F029`
yields I = 80 while the claimed formula `(Vx mod 16) * 5` yields 0. -/
theorem C8_counterexample :
    (decode_and_execute sFont 0xF029).1.I ≠ vget sFont.V 0 % 16 * 5 := by decide

/-- Claim C8 (amended): `Fx29` sets I to `Vx * 5` with no masking of Vx;
this coincides with the font-glyph-of-the-low-nibble address exactly when
Vx < 16. -/
theorem C8_font_address (s : Chip8) (opcode : Nat)
    (hop : opcode / 4096 % 16 = 0xF) (hnn : opcode % 256 = 0x29) :
    decode_and_execute s opcode
      = ({ s with I := vget s.V (opcode / 256 % 16) * 5 }, none) := by
  have hn : opcode % 16 ≠ 0 := by omega
  simp [decode_and_execute, hop, hnn]

/-- Witness for the amended claim C8 at a concrete input. -/
theorem C8_font_address_witness :
    decode_and_execute sFont 0xF029
      = ({ sFont with I := vget sFont.V (0xF029 / 256 % 16) * 5 }, none) :=
  C8_font_address sFont 0xF029 (by decide) (by decide)

/-- Claim C10: `Bnnn` always jumps to `nnn + V0`; the `jump_with_v0_quirk`
flag is never consulted, so both settings give the same execution. -/
theorem C10_jump_quirk_unused (s : Chip8) (b : Bool) (opcode : Nat)
    (hop : opcode / 4096 % 16 = 0xB) :
    decode_and_execute (setJumpQuirk s b) opcode
      = ({ setJumpQuirk s b with pc := opcode % 4096 + vget s.V 0 }, none) := by
  simp [decode_and_execute, setJumpQuirk, hop]

/-- Witness for claim C10 at a concrete input, both quirk settings. -/
theorem C10_jump_quirk_unused_witness :
    decode_and_execute (setJumpQuirk chip0 true) 0xB123
        = ({ setJumpQuirk chip0 true with pc := 0xB123 % 4096 + vget chip0.V 0 }, none) ∧
    decode_and_execute (setJumpQuirk chip0 false) 0xB123
        = ({ setJumpQuirk chip0 false with pc := 0xB123 % 4096 + vget chip0.V 0 }, none) :=
  ⟨C10_jump_quirk_unused chip0 true 0xB123 (by decide),
   C10_jump_quirk_unused chip0 false 0xB123 (by decide)⟩

theorem decode_sprite_oob (s : Chip8) (opcode : Nat)
    (hop : opcode / 4096 % 16 = 0xD) (hI : MEMORY_SIZE < s.I + opcode % 16) :
    decode_and_execute s opcode = ({ s with halted := true }, some .spriteOutOfBounds) := by
  simp [decode_and_execute, hop, hI]

theorem decode_sprite_ok (s : Chip8) (opcode : Nat)
    (hop : opcode / 4096 % 16 = 0xD) (hI : ¬ MEMORY_SIZE < s.I + opcode % 16) :
    (decode_and_execute s opcode).2 = none := by
  simp [decode_and_execute, hop, hI]

theorem decode_bcd_oob (s : Chip8) (opcode : Nat)
    (hop : opcode / 4096 % 16 = 0xF) (hnn : opcode % 256 = 0x33)
    (hlen : s.memory.length = MEMORY_SIZE) (hI : MEMORY_SIZE ≤ s.I + 2) :
    (decode_and_execute s opcode).2 = some .indexError ∧
    (decode_and_execute s opcode).1.halted = s.halted := by
  by_cases h1 : s.I < s.memory.length
  · by_cases h2 : s.I + 1 < s.memory.length
    · have h3 : ¬ s.I + 2 < s.memory.length := by omega
      simp [decode_and_execute, execBcd, hop, hnn, mset, h1, h2, h3]
    · simp [decode_and_execute, execBcd, hop, hnn, mset, h1, h2]
  · simp [decode_and_execute, execBcd, hop, hnn, mset, h1]

theorem decode_store_oob (s : Chip8) (opcode : Nat)
    (hop : opcode / 4096 % 16 = 0xF) (hnn : opcode % 256 = 0x55)
    (hlen : s.memory.length = MEMORY_SIZE) (hI : MEMORY_SIZE ≤ s.I) :
    decode_and_execute s opcode = (s, some .indexError) := by
  have h1 : ¬ s.I < s.memory.length := by omega
  simp [decode_and_execute, execStore, hop, hnn, storeRegs, h1]

theorem decode_load_oob (s : Chip8) (opcode : Nat)
    (hop : opcode / 4096 % 16 = 0xF) (hnn : opcode % 256 = 0x65)
    (hlen : s.memory.length = MEMORY_SIZE) (hI : MEMORY_SIZE ≤ s.I) :
    decode_and_execute s opcode = (s, some .indexError) := by
  have h1 : ¬ s.I < s.memory.length := by omega
  simp [decode_and_execute, execLoad, hop, hnn, loadRegs, h1]

theorem decode_bcd_partial (s : Chip8) (opcode : Nat)
    (hop : opcode / 4096 % 16 = 0xF) (hnn : opcode % 256 = 0x33)
    (hlen : s.memory.length = MEMORY_SIZE) (hI : s.I + 1 = MEMORY_SIZE) :
    decode_and_execute s opcode
      = ({ s with memory := s.memory.set s.I (vget s.V (opcode / 256 % 16) / 100) },
         some .indexError) := by
  have h1 : s.I < s.memory.length := by omega
  have h2 : ¬ s.I + 1 < s.memory.length := by omega
  simp [decode_and_execute, execBcd, hop, hnn, mset, h1, h2]

theorem vget_replicate (n i a : Nat) (h : i < n) : vget (List.replicate n a) i = a := by
  simp [vget, List.getD, List.getElem?_replicate, h]

theorem sBcd_mem : sBcd.memory = List.replicate MEMORY_SIZE 0 := rfl

theorem sBcd_mem_length : sBcd.memory.length = MEMORY_SIZE := by
  rw [sBcd_mem, List.length_replicate]

theorem sStore_mem_length : sStore.memory.length = MEMORY_SIZE := by
  rw [show sStore.memory = List.replicate MEMORY_SIZE 0 from rfl, List.length_replicate]

/-- Claim C2, as stated, is false for the `Fx33` / `Fx55` / `Fx65` cases:
with I = 4095, executing `F033` performs no bounds check, writes the
hundreds digit into memory[4095], then fails with a runtime `IndexError`
(not one of the engine's surfaced halting faults - `halted` stays false),
having already mutated memory. -/
theorem C2_counterexample :
    (decode_and_execute sBcd 0xF033).2 = some EmuError.indexError ∧
    (decode_and_execute sBcd 0xF033).1.halted = false ∧
    vget (decode_and_execute sBcd 0xF033).1.memory 4095 = 1 ∧
    vget sBcd.memory 4095 = 0 := by
  have hd := decode_bcd_partial sBcd 0xF033 (by norm_num) (by norm_num) sBcd_mem_length rfl
  refine ⟨by rw [hd], by rw [hd]; rfl, ?_, ?_⟩
  · rw [hd]
    have hv : vget sBcd.V (0xF033 / 256 % 16) / 100 = 1 := by decide
    have hlt : (4095 : Nat) < sBcd.memory.length := by
      rw [sBcd_mem_length]; norm_num [MEMORY_SIZE]
    have hI : sBcd.I = 4095 := rfl
    rw [hI, hv]
    exact vget_set_self _ _ _ hlt
  · rw [sBcd_mem]
    exact vget_replicate _ _ _ (by norm_num [MEMORY_SIZE])

/-- Claim C2 (amended): only `Dxyn` bounds-checks its memory range
(`I + n` against 4096) before dereferencing, halting with
`SpriteOutOfBounds` when it fails and never faulting otherwise.  `Fx33`,
`Fx55` and `Fx65` perform no engine bounds check: an access at an address
beyond memory surfaces as a Python `IndexError` that does not latch
`halted` (and, for `Fx33`, may land after earlier writes of the same
instruction already mutated memory). -/
theorem C2_memory_bounds :
    (∀ s opcode, opcode / 4096 % 16 = 0xD → MEMORY_SIZE < s.I + opcode % 16 →
      decode_and_execute s opcode = ({ s with halted := true }, some .spriteOutOfBounds)) ∧
    (∀ s opcode, opcode / 4096 % 16 = 0xD → ¬ MEMORY_SIZE < s.I + opcode % 16 →
      (decode_and_execute s opcode).2 = none) ∧
    (∀ s opcode, opcode / 4096 % 16 = 0xF → opcode % 256 = 0x33 →
      s.memory.length = MEMORY_SIZE → MEMORY_SIZE ≤ s.I + 2 →
      (decode_and_execute s opcode).2 = some .indexError ∧
      (decode_and_execute s opcode).1.halted = s.halted) ∧
    (∀ s opcode, opcode / 4096 % 16 = 0xF → opcode % 256 = 0x55 →
      s.memory.length = MEMORY_SIZE → MEMORY_SIZE ≤ s.I →
      decode_and_execute s opcode = (s, some .indexError)) ∧
    (∀ s opcode, opcode / 4096 % 16 = 0xF → opcode % 256 = 0x65 →
      s.memory.length = MEMORY_SIZE → MEMORY_SIZE ≤ s.I →
      decode_and_execute s opcode = (s, some .indexError)) :=
  ⟨decode_sprite_oob, decode_sprite_ok, decode_bcd_oob, decode_store_oob, decode_load_oob⟩

/-- Witness for the amended claim C2 at concrete inputs. -/
theorem C2_memory_bounds_witness :
    decode_and_execute { chip0 with I := 5000 } 0xD005
        = ({ { chip0 with I := 5000 } with halted := true }, some .spriteOutOfBounds) ∧
    (decode_and_execute chip0 0xD001).2 = none ∧
    (decode_and_execute sBcd 0xF033).2 = some EmuError.indexError ∧
    decode_and_execute sStore 0xF055 = (sStore, some .indexError) ∧
    decode_and_execute sStore 0xF065 = (sStore, some .indexError) :=
  ⟨C2_memory_bounds.1 _ 0xD005
     (by norm_num)
     (by rw [show ({ chip0 with I := 5000 } : Chip8).I = 5000 from rfl]; norm_num [MEMORY_SIZE]),
   C2_memory_bounds.2.1 chip0 0xD001 (by norm_num)
     (by rw [show chip0.I = 0 from rfl]; norm_num [MEMORY_SIZE]),
   (C2_memory_bounds.2.2.1 sBcd 0xF033 (by norm_num) (by norm_num) sBcd_mem_length
     (by rw [show sBcd.I = 4095 from rfl]; norm_num [MEMORY_SIZE])).1,
   C2_memory_bounds.2.2.2.1 sStore 0xF055 (by norm_num) (by norm_num) sStore_mem_length
     (by rw [show sStore.I = 4096 from rfl]; norm_num [MEMORY_SIZE]),
   C2_memory_bounds.2.2.2.2 sStore 0xF065 (by norm_num) (by norm_num) sStore_mem_length
     (by rw [show sStore.I = 4096 from rfl]; norm_num [MEMORY_SIZE])⟩

theorem update_timers_halted (s : Chip8) : (update_timers s).halted = s.halted := by
  unfold update_timers
  split <;> rfl

theorem run_frame_halted_eq (s : Chip8) (h : s.halted = true) :
    run_frame s
      = ⟨{ update_timers s with display := (update_timers s).display.render }, 1, 1, none⟩ := by
  simp [run_frame, h]

theorem run_frame_halted (s : Chip8) (h : s.halted = true) :
    (run_frame s).timerTicks = 1 ∧ (run_frame s).presents = 1 ∧
    (run_frame s).fault = none ∧ (run_frame s).state.halted = true := by
  rw [run_frame_halted_eq s h]
  exact ⟨rfl, rfl, rfl, by simpa [update_timers_halted] using h⟩

theorem run_frame_ok_ticks (s : Chip8) (h : (run_frame s).fault = none) :
    (run_frame s).timerTicks = 1 ∧ (run_frame s).presents = 1 := by
  by_cases hh : s.halted
  · simp [run_frame, hh]
  · simp only [run_frame, hh, Bool.false_eq_true, if_false] at h ⊢
    rcases hrs : runSteps s s.cycles_per_frame with ⟨s1, oe⟩
    cases oe <;> simp_all

theorem run_frame_fault_ticks (s : Chip8) (e : EmuError)
    (h : (run_frame s).fault = some e) :
    (run_frame s).timerTicks = 0 ∧ (run_frame s).presents = 0 := by
  by_cases hh : s.halted
  · simp [run_frame, hh] at h
  · simp only [run_frame, hh, Bool.false_eq_true, if_false] at h ⊢
    rcases hrs : runSteps s s.cycles_per_frame with ⟨s1, oe⟩
    cases oe <;> simp_all

theorem hostFrames_fault (s : Chip8) (k : Nat) (e : EmuError)
    (h : (run_frame s).fault = some e) :
    hostFrames s (k + 1) = ((run_frame s).state, some e) := by
  simp [hostFrames, h]

/-- Claim C3, as stated, is false for the faulting tick: with PC = 4095
the fetch inside `run_frame` raises, the exception propagates out before
`update_timers` and `render` are reached, and the frame that faults
performs zero timer ticks and zero presents. -/
theorem C3_counterexample :
    (run_frame sFetch).timerTicks = 0 ∧ (run_frame sFetch).presents = 0 ∧
    (run_frame sFetch).fault = some EmuError.fetchOutOfBounds := by decide

/-- Claim C3 (amended): a `run_frame` call entered while halted, and any
call that completes without a fault, ticks the timers exactly once and
presents exactly once (so the scheduler keeps presenting and decaying
sound on every tick after a halt).  A call in which a fatal fault occurs
mid-frame instead propagates the fault to the caller with zero timer
ticks and zero presents for that tick, and the host frame loop of
`src/main.py`, which catches only `KeyboardInterrupt`, terminates on that
fault rather than continuing. -/
theorem C3_frame_tick_semantics :
    (∀ s, s.halted = true →
      (run_frame s).timerTicks = 1 ∧ (run_frame s).presents = 1 ∧
      (run_frame s).fault = none ∧ (run_frame s).state.halted = true) ∧
    (∀ s, (run_frame s).fault = none →
      (run_frame s).timerTicks = 1 ∧ (run_frame s).presents = 1) ∧
    (∀ s e, (run_frame s).fault = some e →
      (run_frame s).timerTicks = 0 ∧ (run_frame s).presents = 0) ∧
    (∀ s k e, (run_frame s).fault = some e →
      hostFrames s (k + 1) = ((run_frame s).state, some e)) :=
  ⟨run_frame_halted, run_frame_ok_ticks,
   fun s e h => run_frame_fault_ticks s e h,
   fun s k e h => hostFrames_fault s k e h⟩

/-- Witness for the amended claim C3 at concrete inputs. -/
theorem C3_frame_tick_semantics_witness :
    ((run_frame sHalted).timerTicks = 1 ∧ (run_frame sHalted).presents = 1 ∧
     (run_frame sHalted).fault = none ∧ (run_frame sHalted).state.halted = true) ∧
    ((run_frame sFetch).timerTicks = 0 ∧ (run_frame sFetch).presents = 0) ∧
    hostFrames sFetch 1 = ((run_frame sFetch).state, some EmuError.fetchOutOfBounds) :=
  ⟨C3_frame_tick_semantics.1 sHalted rfl,
   C3_frame_tick_semantics.2.2.1 sFetch EmuError.fetchOutOfBounds (by decide),
   C3_frame_tick_semantics.2.2.2 sFetch 0 EmuError.fetchOutOfBounds (by decide)⟩

theorem decode_call_push (s : Chip8) (opcode : Nat)
    (hop : opcode / 4096 % 16 = 0x2) (hsp : s.sp < STACK_SIZE) :
    decode_and_execute s opcode
      = ({ s with stack := s.stack.set s.sp s.pc, sp := s.sp + 1,
                  pc := opcode % 4096 }, none) := by
  have h : ¬ STACK_SIZE ≤ s.sp := by omega
  simp [decode_and_execute, hop, h]

theorem decode_call_over (s : Chip8) (opcode : Nat)
    (hop : opcode / 4096 % 16 = 0x2) (hsp : STACK_SIZE ≤ s.sp) :
    decode_and_execute s opcode = ({ s with halted := true }, some .stackOverflow) := by
  simp [decode_and_execute, hop, hsp]

theorem decode_ret_under (s : Chip8) (hsp : s.sp = 0) :
    decode_and_execute s 0x00EE = ({ s with halted := true }, some .stackUnderflow) := by
  simp [decode_and_execute, hsp]

theorem decode_ret_pop (s : Chip8) (hsp : s.sp ≠ 0) :
    decode_and_execute s 0x00EE
      = ({ s with sp := s.sp - 1, pc := vget s.stack (s.sp - 1) }, none) := by
  simp [decode_and_execute, hsp]

theorem repeatCall_ok (opcode : Nat) (hop : opcode / 4096 % 16 = 0x2) :
    ∀ (k : Nat) (s : Chip8), s.sp + k ≤ STACK_SIZE →
      (repeatCall opcode k s).2 = none ∧ (repeatCall opcode k s).1.sp = s.sp + k := by
  intro k
  induction k with
  | zero => intro s h; exact ⟨rfl, rfl⟩
  | succ m ih =>
    intro s h
    have hsp : s.sp < STACK_SIZE := by omega
    have hc := decode_call_push s opcode hop hsp
    simp only [repeatCall, hc]
    have h2 := ih { s with stack := s.stack.set s.sp s.pc, sp := s.sp + 1,
                           pc := opcode % 4096 }
      (by show s.sp + 1 + m ≤ STACK_SIZE; omega)
    refine ⟨h2.1, ?_⟩
    rw [h2.2]
    show s.sp + 1 + m = s.sp + (m + 1)
    omega

theorem execBcd_sp (s : Chip8) (x : Nat) : (execBcd s x).1.sp = s.sp := by
  unfold execBcd
  repeat' split
  all_goals rfl

theorem execStore_sp (s : Chip8) (x : Nat) : (execStore s x).1.sp = s.sp := by
  unfold execStore
  repeat' split
  all_goals rfl

theorem execLoad_sp (s : Chip8) (x : Nat) : (execLoad s x).1.sp = s.sp := by
  unfold execLoad
  repeat' split
  all_goals rfl

set_option maxHeartbeats 1000000 in
theorem decode_sp_bound (s : Chip8) (opcode : Nat) (h : s.sp ≤ STACK_SIZE) :
    (decode_and_execute s opcode).1.sp ≤ STACK_SIZE := by
  simp only [decode_and_execute]
  have hoplt : opcode / 4096 % 16 < 16 := Nat.mod_lt _ (by norm_num)
  generalize hgen : opcode / 4096 % 16 = op at hoplt ⊢
  interval_cases op
  all_goals norm_num
  all_goals try simp only [apply_ite (fun p : Chip8 × Option EmuError => p.1.sp)]
  all_goals try simp [execBcd_sp, execStore_sp, execLoad_sp]
  all_goals repeat' split
  all_goals try simp_all
  all_goals omega

/-- Claim C5: `2nnn` pushes the current PC and jumps while the stack
pointer is below capacity; sixteen nested calls from an empty stack all
succeed and leave the stack pointer at 16; the seventeenth call raises
`StackOverflow` and latches `halted`; `00EE` with stack pointer 0 raises
`StackUnderflow` and latches `halted`, and otherwise pops the saved PC;
and no instruction ever pushes the stack pointer beyond capacity (it can
never go negative since the underflow guard precedes the decrement). -/
theorem C5_stack_discipline :
    (∀ s opcode, opcode / 4096 % 16 = 0x2 → s.sp < STACK_SIZE →
      decode_and_execute s opcode
        = ({ s with stack := s.stack.set s.sp s.pc, sp := s.sp + 1,
                    pc := opcode % 4096 }, none)) ∧
    (∀ s opcode, opcode / 4096 % 16 = 0x2 → STACK_SIZE ≤ s.sp →
      decode_and_execute s opcode = ({ s with halted := true }, some .stackOverflow)) ∧
    (∀ s, s.sp = 0 →
      decode_and_execute s 0x00EE = ({ s with halted := true }, some .stackUnderflow)) ∧
    (∀ s, s.sp ≠ 0 →
      decode_and_execute s 0x00EE
        = ({ s with sp := s.sp - 1, pc := vget s.stack (s.sp - 1) }, none)) ∧
    (∀ s opcode, opcode / 4096 % 16 = 0x2 → s.sp = 0 →
      (repeatCall opcode 16 s).2 = none ∧
      (repeatCall opcode 16 s).1.sp = STACK_SIZE ∧
      decode_and_execute (repeatCall opcode 16 s).1 opcode
        = ({ (repeatCall opcode 16 s).1 with halted := true }, some .stackOverflow)) ∧
    (∀ s opcode, s.sp ≤ STACK_SIZE →
      (decode_and_execute s opcode).1.sp ≤ STACK_SIZE) := by
  refine ⟨decode_call_push, decode_call_over, decode_ret_under, decode_ret_pop,
    ?_, decode_sp_bound⟩
  intro s opcode hop hsp
  have h16 := repeatCall_ok opcode hop 16 s (by rw [hsp]; norm_num [STACK_SIZE])
  have hsp16 : (repeatCall opcode 16 s).1.sp = STACK_SIZE := by
    rw [h16.2, hsp]; norm_num [STACK_SIZE]
  exact ⟨h16.1, hsp16,
    decode_call_over (repeatCall opcode 16 s).1 opcode hop (le_of_eq hsp16.symm)⟩

/-- Witness for claim C5 at concrete inputs. -/
theorem C5_stack_discipline_witness :
    decode_and_execute chip0 0x2345
        = ({ chip0 with stack := chip0.stack.set chip0.sp chip0.pc, sp := chip0.sp + 1,
                        pc := 0x2345 % 4096 }, none) ∧
    decode_and_execute chip0 0x00EE = ({ chip0 with halted := true }, some .stackUnderflow) ∧
    decode_and_execute { chip0 with sp := 3 } 0x00EE
        = ({ chip0 with sp := 2, pc := vget chip0.stack 2 }, none) ∧
    ((repeatCall 0x2345 16 chip0).2 = none ∧
     (repeatCall 0x2345 16 chip0).1.sp = STACK_SIZE ∧
     decode_and_execute (repeatCall 0x2345 16 chip0).1 0x2345
       = ({ (repeatCall 0x2345 16 chip0).1 with halted := true }, some .stackOverflow)) ∧
    (decode_and_execute chip0 0x00E0).1.sp ≤ STACK_SIZE :=
  ⟨C5_stack_discipline.1 chip0 0x2345 (by norm_num)
     (by rw [show chip0.sp = 0 from rfl]; norm_num [STACK_SIZE]),
   C5_stack_discipline.2.2.1 chip0 rfl,
   C5_stack_discipline.2.2.2.1 { chip0 with sp := 3 } (by decide),
   C5_stack_discipline.2.2.2.2.1 chip0 0x2345 (by norm_num) rfl,
   C5_stack_discipline.2.2.2.2.2 chip0 0x00E0
     (by rw [show chip0.sp = 0 from rfl]; norm_num [STACK_SIZE])⟩

theorem execBcd_halted (s : Chip8) (x : Nat) :
    (execBcd s x).1.halted = s.halted ∧ isFatal (execBcd s x).2 = false := by
  unfold execBcd
  repeat' split
  all_goals exact ⟨rfl, rfl⟩

theorem execStore_halted (s : Chip8) (x : Nat) :
    (execStore s x).1.halted = s.halted ∧ isFatal (execStore s x).2 = false := by
  unfold execStore
  repeat' split
  all_goals exact ⟨rfl, rfl⟩

theorem execLoad_halted (s : Chip8) (x : Nat) :
    (execLoad s x).1.halted = s.halted ∧ isFatal (execLoad s x).2 = false := by
  unfold execLoad
  repeat' split
  all_goals exact ⟨rfl, rfl⟩

set_option maxHeartbeats 1000000 in
theorem decode_halted (s : Chip8) (opcode : Nat) :
    (decode_and_execute s opcode).1.halted
      = (s.halted || isFatal (decode_and_execute s opcode).2) := by
  simp only [decode_and_execute]
  have hoplt : opcode / 4096 % 16 < 16 := Nat.mod_lt _ (by norm_num)
  generalize hgen : opcode / 4096 % 16 = op at hoplt ⊢
  interval_cases op
  all_goals norm_num
  all_goals repeat' split
  all_goals try simp only [execBcd_halted, execStore_halted, execLoad_halted]
  all_goals simp_all [isFatal]

theorem step_halted (s : Chip8) :
    (step s).1.halted = (s.halted || isFatal (step s).2) := by
  by_cases h : s.halted
  · simp [step, h]
  · by_cases hf : MEMORY_SIZE ≤ s.pc ∨ MEMORY_SIZE ≤ s.pc + 1
    · simp [step, h, fetch_opcode, hf, isFatal]
    · simp only [step, h, Bool.false_eq_true, if_false, fetch_opcode, hf, if_false]
      rw [decode_halted]

theorem load_rom_ok_halted (s : Chip8) (rom : List Nat)
    (h : (load_rom s rom).2 = none) : (load_rom s rom).1.halted = false := by
  by_cases hc : MEMORY_SIZE - 0x200 < rom.length
  · simp [load_rom, hc] at h
  · simp [load_rom, hc]

/-- Claim C9, as stated, is false in one place: `load_rom` also resets the
halted flag to false (line 111 of the source), although loading a ROM is
neither a soft reset nor a fresh construction. -/
theorem C9_counterexample :
    sHalted.halted = true ∧ (load_rom sHalted [0x00, 0xE0]).2 = none ∧
    (load_rom sHalted [0x00, 0xE0]).1.halted = false := by
  have hc : ¬ MEMORY_SIZE - 0x200 < 2 := by norm_num [MEMORY_SIZE]
  exact ⟨rfl, by simp [load_rom, hc], by simp [load_rom, hc]⟩

/-- Claim C9 (amended): the halted flag is created false, is turned on by
an instruction exactly when it surfaces one of the four fatal faults (a
Python `IndexError` from the unchecked `Fx33`/`Fx55`/`Fx65` accesses does
not latch it), is never turned off by instruction execution or frame
ticks, a halted `step()` is a strict no-op, and the flag is cleared by a
soft reset, by fresh construction - and also by `load_rom`, which the
original claim did not allow. -/
theorem C9_halted_lifecycle :
    (∀ fontset cfg, (Chip8.init fontset cfg).halted = false) ∧
    (∀ s opcode, (decode_and_execute s opcode).1.halted
        = (s.halted || isFatal (decode_and_execute s opcode).2)) ∧
    (∀ s, (step s).1.halted = (s.halted || isFatal (step s).2)) ∧
    (∀ s, s.halted = true → step s = (s, none)) ∧
    (∀ s, s.halted = true → (run_frame s).state.halted = true) ∧
    (∀ s, (reset s).halted = false) ∧
    (∀ s rom, (load_rom s rom).2 = none → (load_rom s rom).1.halted = false) :=
  ⟨fun _ _ => rfl, decode_halted, step_halted,
   fun s h => by simp [step, h],
   fun s h => (run_frame_halted s h).2.2.2,
   fun _ => rfl, load_rom_ok_halted⟩

/-- Witness for the amended claim C9 at concrete inputs. -/
theorem C9_halted_lifecycle_witness :
    step sHalted = (sHalted, none) ∧
    (run_frame sHalted).state.halted = true ∧
    (load_rom chip0 [0x00, 0xE0]).1.halted = false :=
  ⟨C9_halted_lifecycle.2.2.2.1 sHalted rfl,
   C9_halted_lifecycle.2.2.2.2.1 sHalted rfl,
   C9_halted_lifecycle.2.2.2.2.2.2 chip0 [0x00, 0xE0] (by decide)⟩

theorem stackBytes_length (st : List Nat) : (stackBytes st).length = 2 * st.length := by
  induction st with
  | nil => rfl
  | cons e t ih => simp [stackBytes, ih]; omega

theorem parseStack_stackBytes (st rest : List Nat) :
    parseStack st.length (stackBytes st ++ rest) = st := by
  induction st generalizing rest with
  | nil => rfl
  | cons e t ih =>
    show parseStack (t.length + 1) (e % 256 :: e / 256 :: (stackBytes t ++ rest)) = e :: t
    simp only [parseStack, List.getD_cons_zero, List.getD_cons_succ, List.drop_succ_cons,
      List.drop_zero]
    rw [ih]
    congr 1
    omega

/-- Claim C6: serializing a snapshot and deserializing it into any engine
reproduces bit-identical memory, registers, stack, PC, I, stack pointer,
delay timer, and sound timer, for every state satisfying the data-model
ranges (byte arrays, 16-bit stack entries/PC/I, one-byte SP and timers). -/
theorem C6_snapshot_roundtrip (s t : Chip8) (h : WfState s) :
    ∃ b, save_state s = some b ∧
      ((load_state t b).memory = s.memory ∧ (load_state t b).V = s.V ∧
       (load_state t b).stack = s.stack ∧ (load_state t b).pc = s.pc ∧
       (load_state t b).I = s.I ∧ (load_state t b).sp = s.sp ∧
       (load_state t b).delay_timer = s.delay_timer ∧
       (load_state t b).sound.timer = s.sound.timer) := by
  obtain ⟨hmlen, hmb, hvlen, hvb, hslen, hsb, hpc, hI, hsp, hdt, hst⟩ := h
  have hsave : save_state s
      = some (s.memory ++ (s.V ++ (stackBytes s.stack ++
          (s.pc / 256 :: s.pc % 256 :: s.I / 256 :: s.I % 256 ::
           s.sp :: s.delay_timer :: s.sound.timer :: [])))) := by
    rw [save_state, if_pos ⟨hpc, hI, hsp, hdt, hst⟩]
  refine ⟨_, hsave, ?_⟩
  have h2 : s.stack.length * 2 = (stackBytes s.stack).length := by
    rw [stackBytes_length]; omega
  have hload : load_state t (s.memory ++ (s.V ++ (stackBytes s.stack ++
      (s.pc / 256 :: s.pc % 256 :: s.I / 256 :: s.I % 256 ::
       s.sp :: s.delay_timer :: s.sound.timer :: []))))
      = { t with memory := s.memory, V := s.V, stack := s.stack, pc := s.pc,
                 I := s.I, sp := s.sp, delay_timer := s.delay_timer,
                 sound := t.sound.set_timer s.sound.timer } := by
    simp only [load_state]
    rw [← hmlen, List.take_left, List.drop_left, ← hvlen, List.take_left, List.drop_left,
      ← hslen, parseStack_stackBytes, h2, List.drop_left]
    simp only [List.getD_cons_zero, List.getD_cons_succ, List.drop_succ_cons, List.drop_zero]
    have hpceq : s.pc / 256 * 256 + s.pc % 256 = s.pc := by omega
    have hIeq : s.I / 256 * 256 + s.I % 256 = s.I := by omega
    rw [hpceq, hIeq]
  rw [hload]
  refine ⟨rfl, rfl, rfl, rfl, rfl, rfl, rfl, ?_⟩
  show (t.sound.set_timer s.sound.timer).timer = s.sound.timer
  simp only [Sound.set_timer]
  omega

/-- Witness for claim C6 at a concrete input. -/
theorem C6_snapshot_roundtrip_witness :
    ∃ b, save_state sHalted = some b ∧
      ((load_state chip0 b).memory = sHalted.memory ∧ (load_state chip0 b).V = sHalted.V ∧
       (load_state chip0 b).stack = sHalted.stack ∧ (load_state chip0 b).pc = sHalted.pc ∧
       (load_state chip0 b).I = sHalted.I ∧ (load_state chip0 b).sp = sHalted.sp ∧
       (load_state chip0 b).delay_timer = sHalted.delay_timer ∧
       (load_state chip0 b).sound.timer = sHalted.sound.timer) :=
  C6_snapshot_roundtrip sHalted chip0
    (by
      refine ⟨?_, ?_, rfl, ?_, rfl, ?_, ?_, ?_, ?_, ?_, ?_⟩
      · rw [show sHalted.memory = List.replicate MEMORY_SIZE 0 from rfl, List.length_replicate]
      · intro b hb
        rw [List.eq_of_mem_replicate (show b ∈ List.replicate MEMORY_SIZE 0 from hb)]
        norm_num
      · intro b hb
        rw [List.eq_of_mem_replicate (show b ∈ List.replicate V_COUNT 0 from hb)]
        norm_num
      · intro b hb
        rw [List.eq_of_mem_replicate (show b ∈ List.replicate STACK_SIZE 0 from hb)]
        norm_num
      · rw [show sHalted.pc = 0x200 from rfl]; norm_num
      · rw [show sHalted.I = 0 from rfl]; norm_num
      · rw [show sHalted.sp = 0 from rfl]; norm_num
      · rw [show sHalted.delay_timer = 0 from rfl]; norm_num
      · rw [show sHalted.sound.timer = 0 from rfl]; norm_num)

theorem drawCols_clip_drain (w x yy sb : Nat) :
    ∀ cols, (∀ c ∈ cols, w ≤ x + c) → ∀ px coll,
      drawCols w false x yy sb cols px coll = (px, coll) := by
  intro cols
  induction cols with
  | nil => intro _ px coll; rfl
  | cons c cs ih =>
    intro hcl px coll
    simp only [drawCols, Bool.false_eq_true, if_false]
    split
    · exact ih (fun c' hc' => hcl c' (List.mem_cons_of_mem _ hc')) px coll
    · rw [if_pos (hcl c (List.mem_cons_self c cs))]

theorem specCols_eq_drawCols (w : Nat) (wrap : Bool) (x yy sb : Nat) (hw : 0 < w) :
    ∀ cols, List.Pairwise (· ≤ ·) cols → ∀ px coll,
      specCols w wrap x yy sb cols px coll = drawCols w wrap x yy sb cols px coll := by
  intro cols
  induction cols with
  | nil => intro _ px coll; rfl
  | cons c cs ih =>
    intro hp px coll
    obtain ⟨hhead, htail⟩ := List.pairwise_cons.mp hp
    by_cases hbit : sb &&& (0x80 >>> c) = 0
    · by_cases hC : wrap = false ∧ w ≤ x + c
      · obtain ⟨hw0, hcl⟩ := hC
        subst hw0
        rw [show specCols w false x yy sb (c :: cs) px coll = (px, coll) from by
          simp only [specCols]; rw [if_pos ⟨by simp, hcl⟩]]
        rw [show drawCols w false x yy sb (c :: cs) px coll
            = drawCols w false x yy sb cs px coll from by
          simp only [drawCols]; rw [if_pos hbit]]
        rw [drawCols_clip_drain w x yy sb cs
          (fun c' hc' => by have := hhead c' hc'; omega) px coll]
      · rw [show specCols w wrap x yy sb (c :: cs) px coll
            = specCols w wrap x yy sb cs px coll from by
          simp only [specCols]; rw [if_neg hC, if_pos hbit]]
        rw [show drawCols w wrap x yy sb (c :: cs) px coll
            = drawCols w wrap x yy sb cs px coll from by
          simp only [drawCols]; rw [if_pos hbit]]
        exact ih htail px coll
    · by_cases hC : wrap = false ∧ w ≤ x + c
      · obtain ⟨hw0, hcl⟩ := hC
        subst hw0
        rw [show specCols w false x yy sb (c :: cs) px coll = (px, coll) from by
          simp only [specCols]; rw [if_pos ⟨by simp, hcl⟩]]
        simp only [drawCols, Bool.false_eq_true, if_false]
        rw [if_neg hbit, if_pos hcl]
      · have hxx : ¬ w ≤ (if wrap then (x + c) % w else x + c) := by
          cases wrap with
          | false => simp only [Bool.false_eq_true, if_false]; simp at hC; omega
          | true =>
            simp only [if_true]
            have := Nat.mod_lt (x + c) hw
            omega
        rw [show specCols w wrap x yy sb (c :: cs) px coll
            = specCols w wrap x yy sb cs
                (px.set yy (if wrap then (x + c) % w else x + c)
                  (px yy (if wrap then (x + c) % w else x + c) ^^^ 1))
                (if px yy (if wrap then (x + c) % w else x + c) = 1 then true else coll)
            from by
          simp only [specCols]; rw [if_neg hC, if_neg hbit]]
        rw [show drawCols w wrap x yy sb (c :: cs) px coll
            = drawCols w wrap x yy sb cs
                (px.set yy (if wrap then (x + c) % w else x + c)
                  (px yy (if wrap then (x + c) % w else x + c) ^^^ 1))
                (if px yy (if wrap then (x + c) % w else x + c) = 1 then true else coll)
            from by
          simp only [drawCols]; rw [if_neg hbit, if_neg hxx]]
        exact ih htail _ _

theorem pairwise_le_range (n : Nat) : List.Pairwise (· ≤ ·) (List.range n) :=
  (List.pairwise_lt_range n).imp (fun h => Nat.le_of_lt h)

theorem specRows_eq_drawRows (w h : Nat) (wrap : Bool) (x y : Nat) (sprite : List Nat)
    (hw : 0 < w) (hh : 0 < h) :
    ∀ rows px coll,
      specRows w h wrap x y sprite rows px coll
        = drawRows w h wrap x y sprite rows px coll := by
  intro rows
  induction rows with
  | nil => intro _ _; rfl
  | cons r rs ih =>
    intro px coll
    by_cases hC : wrap = false ∧ h ≤ y + r
    · obtain ⟨hw0, hcl⟩ := hC
      subst hw0
      simp only [specRows, drawRows, Bool.false_eq_true, if_false]
      rw [if_pos ⟨by simp, hcl⟩, if_pos hcl]
    · have hyy : ¬ h ≤ (if wrap then (y + r) % h else y + r) := by
        cases wrap with
        | false => simp only [Bool.false_eq_true, if_false]; simp at hC; omega
        | true =>
          simp only [if_true]
          have := Nat.mod_lt (y + r) hh
          omega
      simp only [specRows, drawRows]
      rw [if_neg hC, if_neg hyy,
        specCols_eq_drawCols w wrap x _ _ hw (List.range 8) (pairwise_le_range 8) px coll]
      exact ih _ _

/-- Claim C4: the drawing code of `Display.draw_sprite` computes exactly
the row/column targeting, clipping, wrapping, bit-skipping, XOR and
collision semantics stated by the claim (formalised as `specDrawSprite`),
for any display with positive dimensions. -/
theorem C4_draw_matches_spec (d : Display) (x y : Nat) (sprite : List Nat)
    (height : Nat) (wrap : Bool) (hw : 0 < d.width) (hh : 0 < d.height) :
    d.drawSprite x y sprite height wrap = specDrawSprite d x y sprite height wrap := by
  unfold Display.drawSprite specDrawSprite
  rw [specRows_eq_drawRows d.width d.height wrap x y sprite hw hh]

/-- Witness for claim C4 at a concrete input. -/
theorem C4_draw_matches_spec_witness :
    disp0.drawSprite 60 0 [0xFF] 1 false = specDrawSprite disp0 60 0 [0xFF] 1 false ∧
    disp0.drawSprite 60 0 [0xFF] 1 true = specDrawSprite disp0 60 0 [0xFF] 1 true :=
  ⟨C4_draw_matches_spec disp0 60 0 [0xFF] 1 false
     (by rw [show disp0.width = 64 from rfl]; norm_num)
     (by rw [show disp0.height = 32 from rfl]; norm_num),
   C4_draw_matches_spec disp0 60 0 [0xFF] 1 true
     (by rw [show disp0.width = 64 from rfl]; norm_num)
     (by rw [show disp0.height = 32 from rfl]; norm_num)⟩

theorem add_mod_ne (a d w : Nat) (hd : 0 < d) (hdw : d < w) : (a + d) % w ≠ a % w := by
  intro heq
  have hw : 0 < w := by omega
  have hr : a % w < w := Nat.mod_lt _ hw
  have hdm : d % w = d := Nat.mod_eq_of_lt hdw
  rw [Nat.add_mod, hdm] at heq
  rcases Nat.lt_or_ge (a % w + d) w with hlt | hge
  · rw [Nat.mod_eq_of_lt hlt] at heq
    omega
  · rw [Nat.mod_eq_sub_mod hge, Nat.mod_eq_of_lt (by omega)] at heq
    omega

theorem tgtC_ne (w : Nat) (wrap : Bool) (x c c' : Nat) (hlt : c < c') (hc' : c' < 8)
    (hw : 8 ≤ w) : tgtC w wrap x c ≠ tgtC w wrap x c' := by
  cases wrap with
  | false => simp only [tgtC, Bool.false_eq_true, if_false]; omega
  | true =>
    simp only [tgtC, if_true]
    intro heq
    have heq2 : (x + c + (c' - c)) % w = (x + c) % w := by
      rw [show x + c + (c' - c) = x + c' by omega]
      exact heq.symm
    exact add_mod_ne (x + c) (c' - c) w (by omega) (by omega) heq2

theorem tgtR_ne (h : Nat) (wrap : Bool) (y r r' : Nat) (hlt : r < r') (hr' : r' < h) :
    tgtR h wrap y r ≠ tgtR h wrap y r' := by
  cases wrap with
  | false => simp only [tgtR, Bool.false_eq_true, if_false]; omega
  | true =>
    simp only [tgtR, if_true]
    intro heq
    have heq2 : (y + r + (r' - r)) % h = (y + r) % h := by
      rw [show y + r + (r' - r) = y + r' by omega]
      exact heq.symm
    exact add_mod_ne (y + r) (r' - r) h (by omega) (by omega) heq2

theorem drawCols_frame (w : Nat) (wrap : Bool) (x yy sb : Nat) :
    ∀ cols (px : Grid) coll r c,
      (r ≠ yy ∨ ∀ c' ∈ cols, tgtC w wrap x c' ≠ c) →
      (drawCols w wrap x yy sb cols px coll).1 r c = px r c := by
  intro cols
  induction cols with
  | nil => intro px coll r c _; rfl
  | cons c0 cs ih =>
    intro px coll r c hcond
    have hcond' : r ≠ yy ∨ ∀ c' ∈ cs, tgtC w wrap x c' ≠ c :=
      hcond.imp id (fun hh c' hc' => hh c' (List.mem_cons_of_mem _ hc'))
    simp only [drawCols]
    split
    · exact ih px coll r c hcond'
    · generalize hxx : (if wrap = true then (x + c0) % w else x + c0) = xx
      have htgt : tgtC w wrap x c0 = xx := hxx
      split
      · rfl
      · rw [ih _ _ r c hcond']
        apply Grid.set_other
        rintro ⟨rfl, rfl⟩
        rcases hcond with hr | hcs
        · exact hr rfl
        · exact hcs c0 (List.mem_cons_self _ _) htgt

theorem drawCols_congr (w : Nat) (wrap : Bool) (x yy sb : Nat) :
    ∀ cols (px qx : Grid) coll, (∀ c, px yy c = qx yy c) →
      (drawCols w wrap x yy sb cols qx coll).2
          = (drawCols w wrap x yy sb cols px coll).2 ∧
      ∀ c, (drawCols w wrap x yy sb cols qx coll).1 yy c
          = (drawCols w wrap x yy sb cols px coll).1 yy c := by
  intro cols
  induction cols with
  | nil => intro px qx coll hag; exact ⟨rfl, fun c => (hag c).symm⟩
  | cons c0 cs ih =>
    intro px qx coll hag
    simp only [drawCols]
    split
    · exact ih px qx coll hag
    · generalize hxx : (if wrap = true then (x + c0) % w else x + c0) = xx
      have hread : qx yy xx = px yy xx := (hag _).symm
      split
      · exact ⟨rfl, fun c => (hag c).symm⟩
      · rw [hread]
        apply ih
        intro c
        by_cases hc : c = xx
        · subst hc
          rw [Grid.set_same, Grid.set_same]
        · rw [Grid.set_other _ _ _ _ _ _ (fun hh => hc hh.2),
            Grid.set_other _ _ _ _ _ _ (fun hh => hc hh.2)]
          exact hag c

theorem drawCols_set_comm (w : Nat) (wrap : Bool) (x yy sb : Nat) :
    ∀ cols (q : Grid) coll r c v,
      (r ≠ yy ∨ ∀ c' ∈ cols, tgtC w wrap x c' ≠ c) →
      drawCols w wrap x yy sb cols (q.set r c v) coll
        = ((drawCols w wrap x yy sb cols q coll).1.set r c v,
           (drawCols w wrap x yy sb cols q coll).2) := by
  intro cols
  induction cols with
  | nil => intro q coll r c v _; rfl
  | cons c0 cs ih =>
    intro q coll r c v hcond
    have hcond' : r ≠ yy ∨ ∀ c' ∈ cs, tgtC w wrap x c' ≠ c :=
      hcond.imp id (fun hh c' hc' => hh c' (List.mem_cons_of_mem _ hc'))
    simp only [drawCols]
    split
    · exact ih q coll r c v hcond'
    · generalize hxx : (if wrap = true then (x + c0) % w else x + c0) = xx
      have htgt : tgtC w wrap x c0 = xx := hxx
      have hne : ¬(yy = r ∧ xx = c) := by
        rintro ⟨h1, h2⟩
        rcases hcond with hr | hcs
        · exact hr h1.symm
        · exact hcs c0 (List.mem_cons_self _ _) (htgt.trans h2)
      rw [Grid.set_other _ _ _ _ _ _ hne]
      split
      · rfl
      · rw [Grid.set_comm _ _ _ _ _ _ _ hne, ih _ _ r c v hcond']

theorem colHits_clip_drain (w x sb : Nat) :
    ∀ cols, (∀ c ∈ cols, w ≤ x + c) → colHits w false x sb cols = false := by
  intro cols
  induction cols with
  | nil => intro _; rfl
  | cons c cs ih =>
    intro hcl
    have h1 : ¬ x + c < w := by have := hcl c (List.mem_cons_self _ _); omega
    have ih' := ih (fun c' hc' => hcl c' (List.mem_cons_of_mem _ hc'))
    simp only [colHits, List.any_cons] at ih' ⊢
    rw [ih']
    simp [h1]

theorem drawCols_double (w : Nat) (wrap : Bool) (x yy sb : Nat) (hw : 8 ≤ w) :
    ∀ cols, List.Pairwise (· < ·) cols → (∀ c ∈ cols, c < 8) →
    ∀ (px : Grid) (coll1 : Bool), (∀ c ∈ cols, px yy (tgtC w wrap x c) = 0) →
      (drawCols w wrap x yy sb cols px coll1).2 = coll1 ∧
      ∀ coll2,
        drawCols w wrap x yy sb cols (drawCols w wrap x yy sb cols px coll1).1 coll2
          = (px, coll2 || colHits w wrap x sb cols) := by
  intro cols
  induction cols with
  | nil =>
    intro _ _ px coll1 _
    exact ⟨rfl, fun coll2 => by simp [drawCols, colHits]⟩
  | cons c0 cs ih =>
    intro hpw hlt8 px coll1 hblank
    obtain ⟨hhead, htail⟩ := List.pairwise_cons.mp hpw
    by_cases hbit : sb &&& (0x80 >>> c0) = 0
    · have hskip : ∀ (q : Grid) (coll : Bool), drawCols w wrap x yy sb (c0 :: cs) q coll
          = drawCols w wrap x yy sb cs q coll := by
        intro q coll
        simp only [drawCols]
        rw [if_pos hbit]
      have hrec := ih htail (fun c hc => hlt8 c (List.mem_cons_of_mem _ hc)) px coll1
        (fun c hc => hblank c (List.mem_cons_of_mem _ hc))
      have hch : colHits w wrap x sb (c0 :: cs) = colHits w wrap x sb cs := by
        simp [colHits, hbit]
      refine ⟨by rw [hskip]; exact hrec.1, fun coll2 => ?_⟩
      rw [hskip, hskip, hrec.2 coll2, hch]
    · by_cases hC : wrap = false ∧ w ≤ x + c0
      · obtain ⟨hwf, hcl⟩ := hC
        subst hwf
        have hbreak : ∀ (q : Grid) (coll : Bool),
            drawCols w false x yy sb (c0 :: cs) q coll = (q, coll) := by
          intro q coll
          simp only [drawCols, Bool.false_eq_true, if_false]
          rw [if_neg hbit, if_pos hcl]
        have hnone : colHits w false x sb (c0 :: cs) = false := by
          apply colHits_clip_drain
          intro c' hc'
          rcases List.mem_cons.mp hc' with rfl | hmem
          · exact hcl
          · have := hhead c' hmem
            omega
        refine ⟨by rw [hbreak], fun coll2 => ?_⟩
        rw [hbreak, hbreak, hnone, Bool.or_false]
      · have hw0 : 0 < w := by omega
        have hxx_in : ¬ w ≤ (if wrap = true then (x + c0) % w else x + c0) := by
          cases wrap with
          | false =>
            simp only [Bool.false_eq_true, if_false]
            simp at hC
            omega
          | true =>
            simp only [if_true]
            have := Nat.mod_lt (x + c0) hw0
            omega
        have hzero : px yy (if wrap = true then (x + c0) % w else x + c0) = 0 := by
          have := hblank c0 (List.mem_cons_self _ _)
          simpa [tgtC] using this
        have hstep1 : ∀ (q : Grid) (coll : Bool),
            q yy (if wrap = true then (x + c0) % w else x + c0) = 0 →
            drawCols w wrap x yy sb (c0 :: cs) q coll
              = drawCols w wrap x yy sb cs
                  (q.set yy (if wrap = true then (x + c0) % w else x + c0) 1) coll := by
          intro q coll hq
          simp only [drawCols]
          rw [if_neg hbit, if_neg hxx_in, hq]
          simp
        have hcs8 : ∀ c ∈ cs, c < 8 := fun c hc => hlt8 c (List.mem_cons_of_mem _ hc)
        have hne_tail : ∀ c ∈ cs,
            tgtC w wrap x c ≠ (if wrap = true then (x + c0) % w else x + c0) := by
          intro c hc heq
          exact tgtC_ne w wrap x c0 c (hhead c hc) (hcs8 c hc) hw heq.symm
        have hblank' : ∀ c ∈ cs,
            (px.set yy (if wrap = true then (x + c0) % w else x + c0) 1) yy
              (tgtC w wrap x c) = 0 := by
          intro c hc
          rw [Grid.set_other _ _ _ _ _ _ (fun hh => hne_tail c hc hh.2)]
          exact hblank c (List.mem_cons_of_mem _ hc)
        have hrec := ih htail hcs8
          (px.set yy (if wrap = true then (x + c0) % w else x + c0) 1) coll1 hblank'
        constructor
        · rw [hstep1 px coll1 hzero]
          exact hrec.1
        · intro coll2
          rw [hstep1 px coll1 hzero]
          have hM1 : (drawCols w wrap x yy sb cs
              (px.set yy (if wrap = true then (x + c0) % w else x + c0) 1) coll1).1 yy
              (if wrap = true then (x + c0) % w else x + c0) = 1 := by
            rw [drawCols_frame w wrap x yy sb cs _ coll1 yy _ (Or.inr hne_tail)]
            exact Grid.set_same _ _ _ _
          have hstep2 : drawCols w wrap x yy sb (c0 :: cs)
              (drawCols w wrap x yy sb cs
                (px.set yy (if wrap = true then (x + c0) % w else x + c0) 1) coll1).1 coll2
              = drawCols w wrap x yy sb cs
                  ((drawCols w wrap x yy sb cs
                    (px.set yy (if wrap = true then (x + c0) % w else x + c0) 1) coll1).1.set
                      yy (if wrap = true then (x + c0) % w else x + c0) 0) true := by
            simp only [drawCols]
            rw [if_neg hbit, if_neg hxx_in, hM1]
            simp
          rw [hstep2,
            drawCols_set_comm w wrap x yy sb cs _ true yy _ 0 (Or.inr hne_tail),
            hrec.2 true]
          have hhit : colHits w wrap x sb (c0 :: cs) = true := by
            simp only [colHits, List.any_cons]
            have hb' : decide ((sb &&& (0x80 >>> c0)) ≠ 0) = true := by simp [hbit]
            have hin : (wrap || decide (x + c0 < w)) = true := by
              cases wrap with
              | true => rfl
              | false =>
                simp at hC ⊢
                omega
            rw [hb', hin]
            simp
          have hfinal : ((px.set yy (if wrap = true then (x + c0) % w else x + c0) 1).set
              yy (if wrap = true then (x + c0) % w else x + c0) 0) = px := by
            rw [Grid.set_absorb]
            exact Grid.set_id _ _ _ _ hzero
          simp [hfinal, hhit]

theorem drawRows_frame (w h : Nat) (wrap : Bool) (x y : Nat) (sprite : List Nat) :
    ∀ rows (px : Grid) coll ρ c,
      (∀ r ∈ rows, (wrap = true ∨ y + r < h) → tgtR h wrap y r ≠ ρ) →
      (drawRows w h wrap x y sprite rows px coll).1 ρ c = px ρ c := by
  intro rows
  induction rows with
  | nil => intro px coll ρ c _; rfl
  | cons r rs ih =>
    intro px coll ρ c hcond
    simp only [drawRows]
    generalize hyy : (if wrap = true then (y + r) % h else y + r) = yy
    have htgt : tgtR h wrap y r = yy := hyy
    split
    · rfl
    · rename_i hle
      have hproc : wrap = true ∨ y + r < h := by
        cases wrap with
        | true => exact Or.inl rfl
        | false =>
          simp only [Bool.false_eq_true, if_false] at hyy
          omega
      rw [ih _ _ ρ c (fun r' hr' hp' => hcond r' (List.mem_cons_of_mem _ hr') hp')]
      exact drawCols_frame w wrap x yy _ (List.range 8) px coll ρ c
        (Or.inl (fun hrc => hcond r (List.mem_cons_self _ _) hproc (htgt.trans hrc.symm ▸ rfl)))

theorem rowHits_clip_drain (w h x y : Nat) (sprite : List Nat) :
    ∀ rows : List Nat, (∀ r ∈ rows, h ≤ y + r) →
      (rows.any fun r => (false || decide (y + r < h)) &&
        colHits w false x (sprite.getD r 0) (List.range 8)) = false := by
  intro rows hcl
  rw [List.any_eq_false]
  intro r hr
  have h1 : ¬ y + r < h := by have := hcl r hr; omega
  simp [h1]

theorem drawRows_double (w h : Nat) (wrap : Bool) (x y : Nat) (sprite : List Nat)
    (hw : 8 ≤ w) (hh : 0 < h) :
    ∀ rows, List.Pairwise (· < ·) rows → (∀ r ∈ rows, r < h) →
    ∀ (px : Grid) (coll1 : Bool),
      (∀ r ∈ rows, ∀ c, px (tgtR h wrap y r) c = 0) →
      (drawRows w h wrap x y sprite rows px coll1).2 = coll1 ∧
      ∀ (qx : Grid) (coll2 : Bool),
        (∀ r ∈ rows, ∀ c, qx (tgtR h wrap y r) c
            = (drawRows w h wrap x y sprite rows px coll1).1 (tgtR h wrap y r) c) →
        (drawRows w h wrap x y sprite rows qx coll2).2
            = (coll2 || rows.any (fun r => (wrap || decide (y + r < h)) &&
                  colHits w wrap x (sprite.getD r 0) (List.range 8))) ∧
        (∀ r ∈ rows, (wrap = true ∨ y + r < h) → ∀ c,
            (drawRows w h wrap x y sprite rows qx coll2).1 (tgtR h wrap y r) c = 0) ∧
        (∀ ρ c, (∀ r ∈ rows, (wrap = true ∨ y + r < h) → tgtR h wrap y r ≠ ρ) →
            (drawRows w h wrap x y sprite rows qx coll2).1 ρ c = qx ρ c) := by
  intro rows
  induction rows with
  | nil =>
    intro _ _ px coll1 _
    refine ⟨rfl, fun qx coll2 _ => ⟨by simp [drawRows], ?_, fun ρ c _ => rfl⟩⟩
    intro r hr
    simp at hr
  | cons r rs ih =>
    intro hpw hlth px coll1 hblank
    obtain ⟨hhead, htail⟩ := List.pairwise_cons.mp hpw
    have hrh : r < h := hlth r (List.mem_cons_self _ _)
    have hrsh : ∀ r' ∈ rs, r' < h := fun r' hr' => hlth r' (List.mem_cons_of_mem _ hr')
    by_cases hclip : wrap = false ∧ h ≤ y + r
    · obtain ⟨hwf, hcl⟩ := hclip
      subst hwf
      have hbreak : ∀ (q : Grid) (coll : Bool),
          drawRows w h false x y sprite (r :: rs) q coll = (q, coll) := by
        intro q coll
        simp only [drawRows, Bool.false_eq_true, if_false]
        rw [if_pos hcl]
      have hnone : ((r :: rs).any fun r' => (false || decide (y + r' < h)) &&
          colHits w false x (sprite.getD r' 0) (List.range 8)) = false := by
        simp only [List.any_cons]
        rw [rowHits_clip_drain w h x y sprite rs
          (fun r' hr' => by have := hhead r' hr'; omega)]
        have h1 : ¬ y + r < h := by omega
        simp [h1]
      refine ⟨by rw [hbreak], fun qx coll2 hag => ⟨?_, ?_, ?_⟩⟩
      · rw [hbreak, hnone, Bool.or_false]
      · intro r' hr' hproc c
        rcases hproc with hp | hp
        · exact absurd hp (by simp)
        · rcases List.mem_cons.mp hr' with rfl | hmem
          · omega
          · have := hhead r' hmem
            omega
      · intro ρ c _
        rw [hbreak]
    · have hprocr : wrap = true ∨ y + r < h := by
        cases wrap with
        | true => exact Or.inl rfl
        | false =>
          simp only [not_and] at hclip
          have := hclip (by simp)
          omega
      have hyy_lt : ¬ h ≤ (if wrap = true then (y + r) % h else y + r) := by
        cases wrap with
        | false =>
          simp only [Bool.false_eq_true, if_false]
          rcases hprocr with hp | hp
          · simp at hp
          · omega
        | true =>
          simp only [if_true]
          have := Nat.mod_lt (y + r) hh
          omega
      have hstep : ∀ (q : Grid) (coll : Bool),
          drawRows w h wrap x y sprite (r :: rs) q coll
            = drawRows w h wrap x y sprite rs
                (drawCols w wrap x (if wrap = true then (y + r) % h else y + r)
                  (sprite.getD r 0) (List.range 8) q coll).1
                (drawCols w wrap x (if wrap = true then (y + r) % h else y + r)
                  (sprite.getD r 0) (List.range 8) q coll).2 := by
        intro q coll
        simp only [drawRows]
        rw [if_neg hyy_lt]
      have htgtR : tgtR h wrap y r = (if wrap = true then (y + r) % h else y + r) := rfl
      have hne_rs : ∀ r' ∈ rs,
          tgtR h wrap y r' ≠ (if wrap = true then (y + r) % h else y + r) := by
        intro r' hr' heq
        exact (tgtR_ne h wrap y r r' (hhead r' hr') (hrsh r' hr')) heq.symm
      have hcd := drawCols_double w wrap x
          (if wrap = true then (y + r) % h else y + r) (sprite.getD r 0) hw
          (List.range 8) (List.pairwise_lt_range 8)
          (fun c hc => List.mem_range.mp hc) px coll1
          (fun c _ => by
            have hb := hblank r (List.mem_cons_self _ _) (tgtC w wrap x c)
            rw [htgtR] at hb
            exact hb)
      have hblank1 : ∀ r' ∈ rs, ∀ c,
          (drawCols w wrap x (if wrap = true then (y + r) % h else y + r)
            (sprite.getD r 0) (List.range 8) px coll1).1 (tgtR h wrap y r') c = 0 := by
        intro r' hr' c
        rw [drawCols_frame w wrap x _ _ (List.range 8) px coll1 _ c
          (Or.inl (hne_rs r' hr'))]
        exact hblank r' (List.mem_cons_of_mem _ hr') c
      have hrecIH := ih htail hrsh
        (drawCols w wrap x (if wrap = true then (y + r) % h else y + r)
          (sprite.getD r 0) (List.range 8) px coll1).1 coll1 hblank1
      constructor
      · rw [hstep px coll1, hcd.1]
        exact hrecIH.1
      · intro qx coll2 hag
        rw [hstep px coll1, hcd.1] at hag
        have hagrow : ∀ c,
            (drawCols w wrap x (if wrap = true then (y + r) % h else y + r)
              (sprite.getD r 0) (List.range 8) px coll1).1
              (if wrap = true then (y + r) % h else y + r) c
            = qx (if wrap = true then (y + r) % h else y + r) c := by
          intro c
          have h1 := hag r (List.mem_cons_self _ _) c
          rw [htgtR] at h1
          rw [h1]
          exact (drawRows_frame w h wrap x y sprite rs _ coll1 _ c
            (fun r' hr' _ => hne_rs r' hr')).symm
        have hcong := drawCols_congr w wrap x
          (if wrap = true then (y + r) % h else y + r) (sprite.getD r 0) (List.range 8)
          (drawCols w wrap x (if wrap = true then (y + r) % h else y + r)
            (sprite.getD r 0) (List.range 8) px coll1).1 qx coll2 hagrow
        have hpx1run := hcd.2 coll2
        have hq2 : (drawCols w wrap x (if wrap = true then (y + r) % h else y + r)
            (sprite.getD r 0) (List.range 8) qx coll2).2
            = (coll2 || colHits w wrap x (sprite.getD r 0) (List.range 8)) := by
          rw [hcong.1, hpx1run]
        have hq1row : ∀ c, (drawCols w wrap x (if wrap = true then (y + r) % h else y + r)
            (sprite.getD r 0) (List.range 8) qx coll2).1
            (if wrap = true then (y + r) % h else y + r) c
            = px (if wrap = true then (y + r) % h else y + r) c := by
          intro c
          rw [hcong.2 c, hpx1run]
        have hq1off : ∀ ρ c, ρ ≠ (if wrap = true then (y + r) % h else y + r) →
            (drawCols w wrap x (if wrap = true then (y + r) % h else y + r)
              (sprite.getD r 0) (List.range 8) qx coll2).1 ρ c = qx ρ c := by
          intro ρ c hρ
          exact drawCols_frame w wrap x _ _ (List.range 8) qx coll2 ρ c (Or.inl hρ)
        have hagrs : ∀ r' ∈ rs, ∀ c,
            (drawCols w wrap x (if wrap = true then (y + r) % h else y + r)
              (sprite.getD r 0) (List.range 8) qx coll2).1 (tgtR h wrap y r') c
            = (drawRows w h wrap x y sprite rs
                (drawCols w wrap x (if wrap = true then (y + r) % h else y + r)
                  (sprite.getD r 0) (List.range 8) px coll1).1 coll1).1
                (tgtR h wrap y r') c := by
          intro r' hr' c
          rw [hq1off _ _ (hne_rs r' hr')]
          exact hag r' (List.mem_cons_of_mem _ hr') c
        have hIH2 := hrecIH.2
          (drawCols w wrap x (if wrap = true then (y + r) % h else y + r)
            (sprite.getD r 0) (List.range 8) qx coll2).1
          (coll2 || colHits w wrap x (sprite.getD r 0) (List.range 8)) hagrs
        rw [hstep qx coll2, hq2]
        have hheadT : ((wrap || decide (y + r < h)) &&
            colHits w wrap x (sprite.getD r 0) (List.range 8))
            = colHits w wrap x (sprite.getD r 0) (List.range 8) := by
          rcases hprocr with hp | hp
          · rw [hp]
            simp
          · simp [hp]
        refine ⟨?_, ?_, ?_⟩
        · rw [hIH2.1]
          simp only [List.any_cons, hheadT]
          rw [Bool.or_assoc]
        · intro r' hr' hproc c
          rcases List.mem_cons.mp hr' with rfl | hmem
          · rw [htgtR, hIH2.2.2 _ c (fun r'' hr'' _ => hne_rs r'' hr''), hq1row c]
            have hb := hblank r' (List.mem_cons_self _ _) c
            rw [htgtR] at hb
            exact hb
          · exact hIH2.2.1 r' hmem hproc c
        · intro ρ c hnoproc
          rw [hIH2.2.2 ρ c (fun r'' hr'' hp'' =>
            hnoproc r'' (List.mem_cons_of_mem _ hr'') hp'')]
          exact hq1off ρ c
            (fun hρ => hnoproc r (List.mem_cons_self _ _) hprocr (htgtR.trans hρ.symm))

/-- Claim C7, as stated, is false: for a sprite with no set bits (or one
fully clipped off-screen) the first draw touches no pixel, so the second
identical draw also collides with nothing and returns collision = false,
not true.  Concretely, drawing the one-row sprite 0x00 twice at (0,0) on
a blank 64-by-32 display returns false both times. -/
theorem C7_counterexample :
    ((disp0.drawSprite 0 0 [0] 1 false).1.drawSprite 0 0 [0] 1 false).2 = false := by
  decide

/-- Claim C7 (amended): drawing the same sprite twice at the same location
on a blank buffer restores every pixel to its original unset state; the
first draw returns collision = false, and the second draw returns
collision = true exactly when the sprite actually lands at least one set
bit on-screen (`spriteTouches`) - in particular it returns false, not
true, for sprites that touch no pixel.  (Stated for draw calls whose row
count is at most the screen height and whose screen is at least 8 pixels
wide, which covers every call the engine makes: `Dxyn` has n at most 15
on the 64-by-32 display.) -/
theorem C7_double_draw (d : Display) (x y : Nat) (sprite : List Nat) (height : Nat)
    (wrap : Bool) (hw : 8 ≤ d.width) (hh : height ≤ d.height) (hpos : 0 < d.height)
    (hblank : ∀ r c, d.pixels r c = 0) :
    (d.drawSprite x y sprite height wrap).2 = false ∧
    ((d.drawSprite x y sprite height wrap).1.drawSprite x y sprite height wrap).2
        = spriteTouches d.width d.height wrap x y sprite height ∧
    ∀ r c,
      ((d.drawSprite x y sprite height wrap).1.drawSprite x y sprite height wrap).1.pixels r c
        = d.pixels r c := by
  have hr8 := drawRows_double d.width d.height wrap x y sprite hw hpos (List.range height)
    (List.pairwise_lt_range height)
    (fun r hr => lt_of_lt_of_le (List.mem_range.mp hr) hh)
    d.pixels false (fun r _ c => hblank _ c)
  have hIH2 := hr8.2
    (drawRows d.width d.height wrap x y sprite (List.range height) d.pixels false).1
    false (fun r _ c => rfl)
  simp only [Display.drawSprite]
  refine ⟨hr8.1, ?_, ?_⟩
  · rw [hIH2.1, Bool.false_or]
    rfl
  · intro ρ c
    by_cases hex : ∀ r ∈ List.range height, (wrap = true ∨ y + r < d.height) →
        tgtR d.height wrap y r ≠ ρ
    · rw [hIH2.2.2 ρ c hex, drawRows_frame d.width d.height wrap x y sprite _ d.pixels
        false ρ c hex]
    · push_neg at hex
      obtain ⟨r, hr, hproc, heq⟩ := hex
      rw [← heq, hIH2.2.1 r hr hproc c, hblank (tgtR d.height wrap y r) c]

/-- Witness for the amended claim C7 at a concrete input. -/
theorem C7_double_draw_witness :
    (disp0.drawSprite 0 0 [0x80] 1 false).2 = false ∧
    ((disp0.drawSprite 0 0 [0x80] 1 false).1.drawSprite 0 0 [0x80] 1 false).2
        = spriteTouches disp0.width disp0.height false 0 0 [0x80] 1 ∧
    ∀ r c,
      ((disp0.drawSprite 0 0 [0x80] 1 false).1.drawSprite 0 0 [0x80] 1 false).1.pixels r c
        = disp0.pixels r c :=
  C7_double_draw disp0 0 0 [0x80] 1 false
    (by rw [show disp0.width = 64 from rfl]; norm_num)
    (by rw [show disp0.height = 32 from rfl]; norm_num)
    (by rw [show disp0.height = 32 from rfl]; norm_num)
    (fun r c => rfl)
